import Mathlib

/-!
Shallow embedding of the micropython-esp32 home-automation controller
(src/src/relays.py, src/src/rule_engine.py, src/src/sensors.py,
src/src/web_server.py, src/src/main.py) and proofs about its behaviour.

Python dictionaries with string keys are modelled as association lists,
Python values by the inductive `PyVal`, and Python exceptions by `Except`.
Hardware and the CPython compile/eval primitives are oracle parameters.
-/

/-- A Python value as it occurs in the relay/sensor/rule data model:
`None`, booleans, integers (also standing in for numeric sensor readings)
and strings. -/
inductive PyVal where
  | none : PyVal
  | bool (b : Bool) : PyVal
  | int (n : Int) : PyVal
  | str (s : String) : PyVal
deriving DecidableEq, Repr

/-- Python truthiness (`if x:`): `None` is falsy, `False`/`0`/`""` are falsy,
everything else is truthy. -/
def PyVal.truthy : PyVal → Bool
  | .none => false
  | .bool b => b
  | .int n => n != 0
  | .str s => s != ""

/-- Numeric view used by Python `==`: `True == 1` and `False == 0`. -/
def PyVal.toNum? : PyVal → Option Int
  | .bool b => some (if b then 1 else 0)
  | .int n => some n
  | _ => Option.none

/-- Python `==` on the modelled values: numeric cross-type equality between
bools and ints, structural equality otherwise, `False` across kinds. -/
def pyEq (a b : PyVal) : Bool :=
  match a.toNum?, b.toNum? with
  | some x, some y => x == y
  | _, _ =>
    match a, b with
    | .none, .none => true
    | .str s, .str t => s == t
    | _, _ => false

/-- A Python dict with string keys, as an association list in insertion
order (relay configuration records are such dicts). -/
def Dict := List (String × PyVal)
deriving DecidableEq, Repr

/-- `d.get(k)` returning `None`-as-absent: the first binding of `k`. -/
def Dict.get? (d : Dict) (k : String) : Option PyVal :=
  match d with
  | [] => Option.none
  | (k', v) :: rest => if k' == k then some v else Dict.get? rest k

/-- `d.get(k, default)`. -/
def Dict.getD (d : Dict) (k : String) (dflt : PyVal) : PyVal :=
  (d.get? k).getD dflt

/-- `k in d`. -/
def Dict.hasKey (d : Dict) (k : String) : Bool :=
  (d.get? k).isSome

/-- `d[k] = v`: update the first binding in place, else append (Python
dict assignment preserves insertion order of existing keys). -/
def Dict.set (d : Dict) (k : String) (v : PyVal) : Dict :=
  match d with
  | [] => [(k, v)]
  | (k', v') :: rest =>
    if k' == k then (k, v) :: rest else (k', v') :: Dict.set rest k v

/-- The list of keys of a dict, in order. -/
def Dict.keys (d : Dict) : List String := d.map Prod.fst

theorem Dict.get?_set_self (d : Dict) (k : String) (v : PyVal) :
    (d.set k v).get? k = some v := by
  induction d with
  | nil => simp [Dict.set, Dict.get?]
  | cons hd tl ih =>
    obtain ⟨k', v'⟩ := hd
    by_cases h : k' = k
    · simp [Dict.set, Dict.get?, h]
    · simp [Dict.set, Dict.get?, h, ih]

theorem Dict.get?_set_ne (d : Dict) (k k' : String) (v : PyVal)
    (h : k ≠ k') : (d.set k v).get? k' = d.get? k' := by
  induction d with
  | nil => simp [Dict.set, Dict.get?, h]
  | cons hd tl ih =>
    obtain ⟨k₀, v₀⟩ := hd
    by_cases h0 : k₀ = k
    · simp [Dict.set, Dict.get?, h0, h]
    · by_cases h1 : k₀ = k'
      · subst h1
        simp [Dict.set, Dict.get?, h0, Ne.symm h]
      · simp [Dict.set, Dict.get?, h0, h1, ih]

/-! ## RelayManager (src/src/relays.py)

`self.relays` is a list of relay dicts, `self.pins` is a dict mapping pin
numbers (Python dict keys, so `True` and `1` coincide — modelled with
`pyEq` lookup) to pin objects; we record the last physical level written
to each bound pin.  The persisted `relays.json` content is modelled as the
list of saved relay dicts. -/

/-- The pin table `self.pins`, with the last physical level (0/1) written. -/
def Pins := List (PyVal × Nat)
deriving DecidableEq, Repr

/-- `pin_num in self.pins` / `self.pins[pin_num]`, with Python dict-key
equality (`True` hashes with `1`). -/
def Pins.lookup (ps : Pins) (k : PyVal) : Option Nat :=
  match ps with
  | [] => Option.none
  | (k', v) :: rest => if pyEq k' k then some v else Pins.lookup rest k

/-- `self.pins[pin_num] = pin` / writing a level to a bound pin. -/
def Pins.set (ps : Pins) (k : PyVal) (v : Nat) : Pins :=
  match ps with
  | [] => [(k, v)]
  | (k', v') :: rest =>
    if pyEq k' k then (k', v) :: rest else (k', v') :: Pins.set rest k v

/-- The `RelayManager` state: relay dict list, bound pins, and the content
of the persisted `relays.json` (file I/O modelled as always succeeding). -/
structure RMState where
  relays : List Dict
  pins : Pins
  persisted : List Dict
deriving DecidableEq, Repr

/-- `RelayManager.set_physical_state(pin_num, value, is_inverted)`:
returns silently when the pin is not bound; otherwise writes GPIO low for
logical ON when inverted, GPIO high for logical ON otherwise.  `value` and
`is_inverted` pass through Python truthiness. -/
def setPhysicalState (ps : Pins) (pinNum value isInverted : PyVal) : Pins :=
  match ps.lookup pinNum with
  | Option.none => ps
  | some _ =>
    let physical : Nat :=
      if isInverted.truthy then (if value.truthy then 0 else 1)
      else (if value.truthy then 1 else 0)
    ps.set pinNum physical

/-- The loop body of `RelayManager.set_relay_by_label`: walks the relay
list; on each relay whose `label` equals (Python `==`) the requested label
it sets `value`, clears `auto` unless `keep_auto`, and writes the physical
pin.  `relay['pin']` raises `KeyError` when the key is absent, aborting
the walk with the mutations made so far kept (`Except.error ()`). -/
def setRelayGo (rs : List Dict) (ps : Pins) (label state : PyVal)
    (keepAuto found : Bool) : List Dict × Pins × Except Unit Bool :=
  match rs with
  | [] => ([], ps, .ok found)
  | r :: rest =>
    if pyEq (r.getD "label" .none) label then
      let r1 := r.set "value" state
      let r2 := if keepAuto then r1 else r1.set "auto" (.bool false)
      match r2.get? "pin" with
      | Option.none => (r2 :: rest, ps, .error ())
      | some pinV =>
        let ps' := setPhysicalState ps pinV (r2.getD "value" .none)
          (r2.getD "isInverted" (.bool false))
        let (rest', ps'', res) := setRelayGo rest ps' label state keepAuto true
        (r2 :: rest', ps'', res)
    else
      let (rest', ps', res) := setRelayGo rest ps label state keepAuto found
      (r :: rest', ps', res)

/-- `RelayManager.set_relay_by_label(label, state, keep_auto)`: returns the
updated state and `found` (or `KeyError` as `.error`). -/
def setRelayByLabel (st : RMState) (label state : PyVal) (keepAuto : Bool) :
    RMState × Except Unit Bool :=
  let (rs, ps, res) := setRelayGo st.relays st.pins label state keepAuto false
  ({ st with relays := rs, pins := ps }, res)

/-- The loop of `RelayManager.set_relay_error`: sets `last_error` on the
first relay whose label matches and stops (`return True`). -/
def setErrGo (label msg : PyVal) : List Dict → List Dict × Bool
  | [] => ([], false)
  | r :: rest =>
    if pyEq (r.getD "label" .none) label then
      (r.set "last_error" msg :: rest, true)
    else
      let (rest', b) := setErrGo label msg rest
      (r :: rest', b)

/-- `RelayManager.set_relay_error(label, error_message)`: returns whether
a relay was found. -/
def setRelayError (st : RMState) (label msg : PyVal) : RMState × Bool :=
  let (rs, b) := setErrGo label msg st.relays
  ({ st with relays := rs }, b)

/-- `RelayManager.clear_relay_error(label)` = `set_relay_error(label, None)`. -/
def clearRelayError (st : RMState) (label : PyVal) : RMState × Bool :=
  setRelayError st label .none

/-- The per-relay dict written by `RelayManager.save_config`: exactly the
declarative fields.  `relay['pin']` and `relay['label']` are direct
subscripts, so a missing key raises `KeyError` (`Option.none` here). -/
def relayCopyForSave (r : Dict) : Option Dict :=
  match r.get? "pin", r.get? "label" with
  | some p, some l =>
    some [("pin", p), ("label", l),
          ("isInverted", r.getD "isInverted" (.bool false)),
          ("defaultValue", r.getD "defaultValue" (.bool false)),
          ("defaultAuto", r.getD "defaultAuto" (.bool false)),
          ("rule", r.getD "rule" (.str "[\"NOP\"]"))]
  | _, _ => Option.none

/-- The full list built by `save_config` before writing, failing with the
first `KeyError`. -/
def relaysForSave : List Dict → Except Unit (List Dict)
  | [] => .ok []
  | r :: rest =>
    match relayCopyForSave r with
    | Option.none => .error ()
    | some c =>
      match relaysForSave rest with
      | .ok cs => .ok (c :: cs)
      | .error e => .error e

/-- `RelayManager.save_config()`: strips runtime fields and persists.  The
file write itself is modelled as succeeding (its `OSError` path only
affects the returned bool, which `update_config` ignores). -/
def saveConfig (st : RMState) : Except Unit RMState :=
  match relaysForSave st.relays with
  | .ok cs => .ok { st with persisted := cs }
  | .error e => .error e

/-- `pin_num >= 0` on a Python value: fine for ints and bools (`True >= 0`
and `False >= 0` both hold), a `TypeError` (`.error`) otherwise.  `None`
is filtered out before this comparison in `_setup_pins`. -/
def pyGeZero (v : PyVal) : Except Unit Bool :=
  match v.toNum? with
  | some n => .ok (decide (0 ≤ n))
  | Option.none => .error ()

/-- `RelayManager._setup_pins()`: binds every configured non-negative pin
as an output and drives it to the relay's current value.  `validPin`
models which pin numbers `machine.Pin` accepts (it raises `ValueError`,
which the code catches and skips, on the rest).  A non-numeric `pin`
raises `TypeError` at the `>= 0` comparison, which propagates
(`.error` with the bindings made so far kept). -/
def setupPins (validPin : Int → Bool) :
    List Dict → Pins → Pins × Except Unit Unit
  | [], ps => (ps, .ok ())
  | r :: rest, ps =>
    let pinV := r.getD "pin" .none
    if pinV = .none then setupPins validPin rest ps
    else
      match pyGeZero pinV with
      | .error _ => (ps, .error ())
      | .ok false => setupPins validPin rest ps
      | .ok true =>
        let n := (pinV.toNum?).getD 0
        if validPin n then
          let ps1 := ps.set pinV 0
          let ps2 := setPhysicalState ps1 pinV (r.getD "value" (.bool false))
            (r.getD "isInverted" (.bool false))
          setupPins validPin rest ps2
        else
          setupPins validPin rest ps

/-- The argument of `RelayManager.update_config`: either a Python list of
relay dicts, or any other Python value (failing `isinstance(_, list)`). -/
inductive PyArg where
  | notList (v : PyVal)
  | relayList (rs : List Dict)

/-- The seeding loop of `update_config`: runtime fields that are missing
are set to `False`/`False`/`None` (not to the declared defaults). -/
def seedRelay (d : Dict) : Dict :=
  let d1 := if d.hasKey "value" then d else d.set "value" (.bool false)
  let d2 := if d1.hasKey "auto" then d1 else d1.set "auto" (.bool false)
  if d2.hasKey "last_error" then d2 else d2.set "last_error" .none

/-- `RelayManager.update_config(new_relays)`: rejects non-lists, otherwise
replaces the relay list, seeds missing runtime fields, persists
(`save_config`'s `KeyError` propagates) and re-runs `_setup_pins`
(whose `TypeError` propagates).  Returns the final state and
`Except` of the returned bool. -/
def updateConfig (validPin : Int → Bool) (st : RMState) (arg : PyArg) :
    RMState × Except Unit Bool :=
  match arg with
  | .notList _ => (st, .ok false)
  | .relayList rs =>
    let seeded := rs.map seedRelay
    let st1 := { st with relays := seeded }
    match saveConfig st1 with
    | .error _ => (st1, .error ())
    | .ok st2 =>
      match setupPins validPin st2.relays st2.pins with
      | (ps', .error _) => ({ st2 with pins := ps' }, .error ())
      | (ps', .ok _) => ({ st2 with pins := ps' }, .ok true)

/-- Outcome of `POST /api/relays/control`. -/
inductive ControlResp where
  | success
  | relayNotFound
deriving DecidableEq, Repr

/-- `WebServer.api_relays_control_post` (src/src/web_server.py): reads
`label` and `state` from the JSON body, raises `ValueError` when either is
`None` (identity test), and otherwise calls `set_relay_by_label` with the
default `keep_auto=False`. -/
def apiRelaysControlPost (st : RMState) (data : Dict) :
    RMState × Except String ControlResp :=
  let label := data.getD "label" .none
  let state := data.getD "state" .none
  if label = .none ∨ state = .none then
    (st, .error "Missing label or state")
  else
    match setRelayByLabel st label state false with
    | (st', .ok true) => (st', .ok .success)
    | (st', .ok false) => (st', .ok .relayNotFound)
    | (st', .error _) => (st', .error "KeyError")

/-! ## RuleEngine (src/src/rule_engine.py)

CPython `compile`/`eval` and the sensor reads visible to a rule are
oracles: deterministic functions supplied as parameters.  A compiled code
object is an opaque handle (`Nat`).  The compiled-program cache
`self._compiled_cache` is keyed by `(rule_code, mode)` exactly as in the
source.  We additionally count `compile` invocations and successful
compilations, to settle the spec's compile-counter claim. -/

/-- A compiled code object (opaque handle). -/
abbrev Code := Nat

/-- Python `compile` mode: `'eval'` (expression) or `'exec'` (statements). -/
inductive Mode where
  | expr
  | stmts
deriving DecidableEq, Repr

/-- How a `compile` call fails: `SyntaxError` (caught and retried in exec
mode by `evaluate`) or any other exception (propagated). -/
inductive CompileErr where
  | syntaxError
  | otherError
deriving DecidableEq, Repr

/-- The CPython primitives `evaluate` relies on, as deterministic oracles:
`compile`, `eval` of an expression code object, and `exec` of a statement
code object returning the resulting `local_vars` dict. -/
structure PyOracle where
  compile : String → Mode → Except CompileErr Code
  runExpr : Code → Except Unit PyVal
  runStmts : Code → Except Unit Dict

/-- `RuleEngine` state: the compiled cache plus instrumentation counters
(number of `compile` invocations / successful compilations). -/
structure REState where
  cache : List ((String × Mode) × Code)
  compileCalls : Nat
  compileSuccesses : Nat
deriving DecidableEq, Repr

/-- Cache lookup (`cache_key in self._compiled_cache`). -/
def cacheLookup (c : List ((String × Mode) × Code)) (k : String × Mode) :
    Option Code :=
  match c with
  | [] => Option.none
  | (k', v) :: rest => if k' = k then some v else cacheLookup rest k

/-- Cache store (`self._compiled_cache[cache_key] = ...`). -/
def cacheStore (c : List ((String × Mode) × Code)) (k : String × Mode)
    (v : Code) : List ((String × Mode) × Code) :=
  match c with
  | [] => [(k, v)]
  | (k', v') :: rest =>
    if k' = k then (k', v) :: rest else (k', v') :: cacheStore rest k v

/-- The compile-and-cache phase of `RuleEngine.evaluate`: resolves the
cached code object and mode for `rule_code`, compiling on a cache miss:
expression mode first, statement mode after a `SyntaxError`; any other
compile failure propagates. -/
def resolveCompiled (O : PyOracle) (st : REState) (rule : String) :
    Except Unit (Code × Mode) × REState :=
  match cacheLookup st.cache (rule, .expr) with
  | some c => (.ok (c, .expr), st)
  | Option.none =>
    let st1 := { st with compileCalls := st.compileCalls + 1 }
    match O.compile rule .expr with
    | .ok c =>
      (.ok (c, .expr),
       { st1 with cache := cacheStore st1.cache (rule, .expr) c,
                  compileSuccesses := st1.compileSuccesses + 1 })
    | .error .otherError => (.error (), st1)
    | .error .syntaxError =>
      match cacheLookup st1.cache (rule, .stmts) with
      | some c => (.ok (c, .stmts), st1)
      | Option.none =>
        let st2 := { st1 with compileCalls := st1.compileCalls + 1 }
        match O.compile rule .stmts with
        | .ok c =>
          (.ok (c, .stmts),
           { st2 with cache := cacheStore st2.cache (rule, .stmts) c,
                      compileSuccesses := st2.compileSuccesses + 1 })
        | .error _ => (.error (), st2)

/-- The execution phase of `RuleEngine.evaluate`: run the compiled object;
in statement mode the result is `local_vars.get('result', None)`. -/
def runCompiled (O : PyOracle) (c : Code) (m : Mode) : Except Unit PyVal :=
  match m with
  | .expr => O.runExpr c
  | .stmts =>
    match O.runStmts c with
    | .ok locals => .ok (locals.getD "result" .none)
    | .error e => .error e

/-- Is the character stripped by Python `str.strip()`? -/
def isPySpace (c : Char) : Bool :=
  c == ' ' || c == '\t' || c == '\n' || c == '\r' ||
  c == '\x0b' || c == '\x0c'

/-- `not rule_code or not rule_code.strip()`: the string is empty or
whitespace-only. -/
def pyStripEmpty (s : String) : Bool := s.data.all isPySpace

/-- `RuleEngine.evaluate(rule_code)`: empty or whitespace-only rules
return `None` without compiling; otherwise compile (with caching) and run;
compile and runtime failures propagate (`raise`). -/
def evaluate (O : PyOracle) (st : REState) (rule : String) :
    Except Unit PyVal × REState :=
  if pyStripEmpty rule then (.ok .none, st)
  else
    match resolveCompiled O st rule with
    | (.ok (c, m), st') => (runCompiled O c m, st')
    | (.error e, st') => (.error e, st')

/-- `RuleEngine.evaluate_safe(rule_code, default)`: wraps `evaluate` in a
catch-all and yields `default` on any failure. -/
def evaluateSafe (O : PyOracle) (st : REState) (rule : String)
    (dflt : PyVal) : PyVal × REState :=
  match evaluate O st rule with
  | (.ok v, st') => (v, st')
  | (.error _, st') => (dflt, st')

/-- The three rule outcomes of the spec. -/
inductive RuleOutcome where
  | TurnOn
  | TurnOff
  | NoChange
deriving DecidableEq, Repr

/-- How the automation loop interprets an evaluation result (`main.py`):
`True` turns the relay on, `False` off, anything else keeps state. -/
def outcomeOf : PyVal → RuleOutcome
  | .bool true => .TurnOn
  | .bool false => .TurnOff
  | _ => .NoChange

/-! ## SensorManager (src/src/sensors.py)

Hardware handles and reads are oracles; a raised read is `.error`.
`time.ticks_diff(now, last)` is modelled as integer subtraction. -/

/-- The sensor hardware visible to `SensorManager`: presence flags
(truthiness of the handle attributes) and the outcome of each read. -/
structure SensorHW where
  ahtPresent : Bool
  ahtT : Except Unit PyVal
  ahtRH : Except Unit PyVal
  dsPresent : Bool
  dsConvert : Except Unit Unit
  dsRead : Except Unit PyVal
  lightPresent : Bool
  lightRead : Except Unit PyVal
  lightSwitchPresent : Bool
  lightSwitchValue : Except Unit Int
  resetSwitchPresent : Bool
  resetSwitchValue : Except Unit Int
  clockSeconds : Int

/-- The mutable fields of `SensorManager` that `update_all` touches. -/
structure SensorState where
  temperature : PyVal
  humidity : PyVal
  light_level : PyVal
  switch_state : Bool
  reset_switch_state : Bool
  last_temperature : PyVal
  last_humidity : PyVal
  last_light_level : PyVal
  last_switch_state : Bool
  last_reset_switch_state : Bool
  last_time_seconds : Int
  last_temp_humidity_read : Int
  last_light_read : Int
  last_switch_read : Int
  temp_humidity_interval : Int
  light_interval : Int
  switch_interval : Int
deriving DecidableEq, Repr

/-- `SensorManager._read_temp_humidity()`: AHT21 first (both values in
one `try`, so a raised `RH()` read keeps the already-assigned
temperature); DS18B20 fallback for temperature only; every hardware
exception is caught, leaving the local `temp`/`humidity` at `None`. -/
def readTempHumidity (hw : SensorHW) : PyVal × PyVal :=
  let th : PyVal × PyVal :=
    if hw.ahtPresent then
      match hw.ahtT with
      | .ok tv =>
        match hw.ahtRH with
        | .ok hv => (tv, hv)
        | .error _ => (tv, .none)
      | .error _ => (.none, .none)
    else (.none, .none)
  if th.1 = .none ∧ hw.dsPresent then
    match hw.dsConvert with
    | .error _ => th
    | .ok _ =>
      match hw.dsRead with
      | .ok tv => (tv, th.2)
      | .error _ => th
  else th

/-- `SensorManager._read_light_level()`: on a raised ADC read, returns the
last known value; `None` when not configured. -/
def readLightLevel (hw : SensorHW) (lightLevel : PyVal) : PyVal :=
  if hw.lightPresent then
    match hw.lightRead with
    | .ok v => v
    | .error _ => lightLevel
  else .none

/-- `SensorManager._read_switch_state()` (active-low, errors read as
not-pressed). -/
def readSwitchState (hw : SensorHW) : Bool :=
  if hw.lightSwitchPresent then
    match hw.lightSwitchValue with
    | .ok n => n == 0
    | .error _ => false
  else false

/-- `SensorManager._read_reset_switch_state()`. -/
def readResetSwitchState (hw : SensorHW) : Bool :=
  if hw.resetSwitchPresent then
    match hw.resetSwitchValue with
    | .ok n => n == 0
    | .error _ => false
  else false

/-- `SensorManager.update_all()`: refreshes each channel whose interval
has elapsed; each refresh first moves `current` into `last_*`, then
stores the freshly read value. -/
def updateAll (hw : SensorHW) (st : SensorState) (now : Int) : SensorState :=
  let st := { st with last_time_seconds := hw.clockSeconds }
  let st :=
    if st.temp_humidity_interval ≤ now - st.last_temp_humidity_read then
      let th := readTempHumidity hw
      { st with last_temperature := st.temperature,
                last_humidity := st.humidity,
                temperature := th.1,
                humidity := th.2,
                last_temp_humidity_read := now }
    else st
  let st :=
    if st.light_interval ≤ now - st.last_light_read then
      { st with last_light_level := st.light_level,
                light_level := readLightLevel hw st.light_level,
                last_light_read := now }
    else st
  if st.switch_interval ≤ now - st.last_switch_read then
    { st with last_switch_state := st.switch_state,
              last_reset_switch_state := st.reset_switch_state,
              switch_state := readSwitchState hw,
              reset_switch_state := readResetSwitchState hw,
              last_switch_read := now }
  else st

/-! ## Static file serving (src/src/web_server.py, `serve_file`) -/

/-- The response produced by `WebServer.serve_file`: 403, a 200 streaming
`path` (with `Content-Encoding: gzip` exactly when `gzip`), 404, or 500
when opening the chosen file fails. -/
inductive HttpResp where
  | forbidden
  | served (path : String) (gzip : Bool)
  | notFound
  | serverError
deriving DecidableEq, Repr

/-- Is `pat` a prefix of the character list? -/
def listPre : List Char → List Char → Bool
  | [], _ => true
  | _ :: _, [] => false
  | a :: as, b :: bs => a == b && listPre as bs

/-- Does `pat` occur as a contiguous sublist? -/
def listSub (pat : List Char) : List Char → Bool
  | [] => listPre pat []
  | c :: rest => listPre pat (c :: rest) || listSub pat rest

/-- Python `sub in s` for strings. -/
def containsSub (s pat : String) : Bool := listSub pat.data s.data

/-- Python `c in s` for a single character. -/
def containsChar (s : String) (c : Char) : Bool := s.data.contains c

/-- Python `s.endswith(suffix)`. -/
def strEndsWith (s suffix : String) : Bool :=
  listPre suffix.data.reverse s.data.reverse

/-- `WebServer.serve_file(writer, path)`: `/` maps to `/index.html`;
paths containing `..` are rejected; the precompressed `.gz` sibling is
preferred; when neither exists, paths without a `.` (or ending in
`.html`) fall back to the gzipped root index, others get 404.  `fs` is
the set of existing files (`os.stat` succeeds / `open` succeeds). -/
def serveFile (fs : List String) (www : String) (path0 : String) : HttpResp :=
  let path := if path0 = "/" then "/index.html" else path0
  if containsSub path ".." then .forbidden
  else
    let gzPath := www ++ path ++ ".gz"
    let filePath := www ++ path
    let choice : Option (String × Bool) :=
      if fs.contains gzPath then some (gzPath, true)
      else if fs.contains filePath then some (filePath, false)
      else if ¬ containsChar path '.' ∨ strEndsWith path ".html" then
        some (www ++ "/index.html.gz", true)
      else Option.none
    match choice with
    | Option.none => .notFound
    | some (sp, gz) => if fs.contains sp then .served sp gz else .serverError

/-! ## The automation loop (src/src/main.py, one tick) -/

/-- One relay's processing inside a tick of `automation_loop`
(src/src/main.py lines 33-69).  `ev` is the behaviour of
`instances.rules.evaluate` on this tick, raising with a message consumed
by `set_relay_error`; the `KeyError` a `set_relay_by_label` call may
raise is caught by the same handler (its `str(e)` message is modelled by
a fixed placeholder). -/
def tickRelay (ev : PyVal → Except String PyVal) (st : RMState) (i : Nat) :
    RMState :=
  match st.relays[i]? with
  | Option.none => st
  | some relay =>
    if ¬ (relay.getD "auto" (.bool false)).truthy then st
    else
      let rule := relay.getD "rule" (.str "")
      if ¬ rule.truthy ∨ pyEq rule (.str "[\"NOP\"]") then st
      else
        let label := relay.getD "label" (.str "Unknown")
        match ev rule with
        | .error msg => (setRelayError st label (.str msg)).1
        | .ok result =>
          let st1 := (clearRelayError st label).1
          match result with
          | .bool b =>
            (match st1.relays[i]? with
             | Option.none => st1
             | some relay2 =>
               if pyEq (.bool b) (relay2.getD "value" .none) then st1
               else
                 match setRelayByLabel st1 label (.bool b) true with
                 | (st2, .ok _) => st2
                 | (st2, .error _) => (setRelayError st2 label (.str "KeyError")).1)
          | _ => st1

/-- One tick of the automation loop over every relay, in list order. -/
def tick (ev : PyVal → Except String PyVal) (st : RMState) : RMState :=
  (List.range st.relays.length).foldl (tickRelay ev) st

/-! ## Basic lemmas -/

theorem pyEq_refl (a : PyVal) : pyEq a a = true := by
  cases a <;> simp [pyEq, PyVal.toNum?]

theorem Pins.lookup_set_found (ps : Pins) (k : PyVal) (lvl x : Nat)
    (h : ps.lookup k = some lvl) : (ps.set k x).lookup k = some x := by
  induction ps with
  | nil => simp [Pins.lookup] at h
  | cons hd tl ih =>
    obtain ⟨k', v'⟩ := hd
    by_cases hk : pyEq k' k = true
    · simp [Pins.set, Pins.lookup, hk]
    · simp only [Pins.lookup, hk] at h
      simp [Pins.set, Pins.lookup, hk, ih h]

theorem cacheLookup_store_self (c : List ((String × Mode) × Code))
    (k : String × Mode) (v : Code) : cacheLookup (cacheStore c k v) k = some v := by
  induction c with
  | nil => simp [cacheStore, cacheLookup]
  | cons hd tl ih =>
    obtain ⟨k', v'⟩ := hd
    by_cases h : k' = k
    · simp [cacheStore, cacheLookup, h]
    · simp [cacheStore, cacheLookup, h, ih]

theorem cacheLookup_store_ne (c : List ((String × Mode) × Code))
    (k k' : String × Mode) (v : Code) (h : k ≠ k') :
    cacheLookup (cacheStore c k v) k' = cacheLookup c k' := by
  induction c with
  | nil => simp [cacheStore, cacheLookup, h]
  | cons hd tl ih =>
    obtain ⟨k₀, v₀⟩ := hd
    by_cases h0 : k₀ = k
    · subst h0
      simp [cacheStore, cacheLookup, h, Ne.symm h]
    · by_cases h1 : k₀ = k'
      · subst h1
        simp [cacheStore, cacheLookup, h0]
      · simp [cacheStore, cacheLookup, h0, h1, ih]

/-! ## Claim theorems -/

/-- C10: `update_config` called with an argument that is not a list
returns `False` and leaves the relay list, the pin map and the persisted
config exactly as they were (the `isinstance` guard runs before any
mutation). -/
theorem updateConfig_notList_noop (validPin : Int → Bool) (st : RMState)
    (v : PyVal) : updateConfig validPin st (.notList v) = (st, .ok false) := rfl

/-- C1: `evaluate_safe` never raises — every failure of `evaluate`
(compile or runtime, on any input string including empty, deny-listed or
syntactically invalid text) is caught and mapped to the default — and its
result always classifies as one of the three rule outcomes. -/
theorem evaluateSafe_never_raises (O : PyOracle) (st : REState)
    (rule : String) (dflt : PyVal) :
    (evaluateSafe O st rule dflt).1 =
      (match (evaluate O st rule).1 with
       | .ok v => v
       | .error _ => dflt) ∧
    (outcomeOf (evaluateSafe O st rule dflt).1 = RuleOutcome.TurnOn ∨
     outcomeOf (evaluateSafe O st rule dflt).1 = RuleOutcome.TurnOff ∨
     outcomeOf (evaluateSafe O st rule dflt).1 = RuleOutcome.NoChange) := by
  constructor
  · unfold evaluateSafe
    rcases h : evaluate O st rule with ⟨res, st'⟩
    cases res <;> simp
  · rcases hout : outcomeOf (evaluateSafe O st rule dflt).1 with _ | _ | _ <;> simp

theorem relaysForSave_shape (rs cs : List Dict) (h : relaysForSave rs = .ok cs) :
    ∀ d ∈ cs, ∃ r, relayCopyForSave r = some d := by
  induction rs generalizing cs with
  | nil =>
    simp only [relaysForSave, Except.ok.injEq] at h
    subst h
    simp
  | cons r rest ih =>
    simp only [relaysForSave] at h
    cases hc : relayCopyForSave r with
    | none => rw [hc] at h; exact absurd h (by simp)
    | some c =>
      rw [hc] at h
      cases hr : relaysForSave rest with
      | error e => rw [hr] at h; exact absurd h (by simp)
      | ok cs' =>
        rw [hr] at h
        simp only [Except.ok.injEq] at h
        subst h
        intro d hd
        rcases List.mem_cons.mp hd with rfl | hmem
        · exact ⟨r, hc⟩
        · exact ih cs' hr d hmem

theorem relayCopy_keys (r d : Dict) (h : relayCopyForSave r = some d) :
    d.keys = ["pin", "label", "isInverted", "defaultValue", "defaultAuto",
              "rule"] ∧
    d.hasKey "value" = false ∧ d.hasKey "auto" = false ∧
    d.hasKey "last_error" = false := by
  unfold relayCopyForSave at h
  cases hp : r.get? "pin" <;> rw [hp] at h
  · exact absurd h (by simp)
  · cases hl : r.get? "label" <;> rw [hl] at h
    · exact absurd h (by simp)
    · simp only [Option.some.injEq] at h
      subst h
      refine ⟨by simp [Dict.keys], ?_, ?_, ?_⟩ <;>
        simp [Dict.hasKey, Dict.get?]

/-- C7: the persisted form written by `save_config` contains exactly the
declarative fields `pin`, `label`, `isInverted`, `defaultValue`,
`defaultAuto`, `rule`, and never the runtime-only fields `value`, `auto`
or `last_error`. -/
theorem saveConfig_declarative_only (st st' : RMState)
    (h : saveConfig st = .ok st') :
    ∀ d ∈ st'.persisted,
      d.keys = ["pin", "label", "isInverted", "defaultValue", "defaultAuto",
                "rule"] ∧
      d.hasKey "value" = false ∧ d.hasKey "auto" = false ∧
      d.hasKey "last_error" = false := by
  unfold saveConfig at h
  cases hr : relaysForSave st.relays with
  | error e => rw [hr] at h; exact absurd h (by simp)
  | ok cs =>
    rw [hr] at h
    simp only [Except.ok.injEq] at h
    intro d hd
    have hpers : st'.persisted = cs := by rw [← h]
    obtain ⟨r, hcopy⟩ := relaysForSave_shape _ _ hr d (hpers ▸ hd)
    exact relayCopy_keys r d hcopy

/-- Witness for C7: a concrete relay carrying runtime fields is persisted
with exactly the six declarative keys. -/
theorem saveConfig_declarative_only_witness :
    Dict.keys [("pin", PyVal.int 5), ("label", PyVal.str "pump"),
      ("isInverted", PyVal.bool true), ("defaultValue", PyVal.bool false),
      ("defaultAuto", PyVal.bool false),
      ("rule", PyVal.str "get_temperature() > 25")] =
      ["pin", "label", "isInverted", "defaultValue", "defaultAuto",
       "rule"] ∧
    Dict.hasKey [("pin", PyVal.int 5), ("label", PyVal.str "pump"),
      ("isInverted", PyVal.bool true), ("defaultValue", PyVal.bool false),
      ("defaultAuto", PyVal.bool false),
      ("rule", PyVal.str "get_temperature() > 25")] "value" = false ∧
    Dict.hasKey [("pin", PyVal.int 5), ("label", PyVal.str "pump"),
      ("isInverted", PyVal.bool true), ("defaultValue", PyVal.bool false),
      ("defaultAuto", PyVal.bool false),
      ("rule", PyVal.str "get_temperature() > 25")] "auto" = false ∧
    Dict.hasKey [("pin", PyVal.int 5), ("label", PyVal.str "pump"),
      ("isInverted", PyVal.bool true), ("defaultValue", PyVal.bool false),
      ("defaultAuto", PyVal.bool false),
      ("rule", PyVal.str "get_temperature() > 25")] "last_error" = false :=
  saveConfig_declarative_only
    (RMState.mk
      [[("pin", PyVal.int 5), ("label", PyVal.str "pump"),
        ("isInverted", PyVal.bool true), ("value", PyVal.bool true),
        ("auto", PyVal.bool true), ("last_error", PyVal.str "boom"),
        ("rule", PyVal.str "get_temperature() > 25")]] [] [])
    (RMState.mk
      [[("pin", PyVal.int 5), ("label", PyVal.str "pump"),
        ("isInverted", PyVal.bool true), ("value", PyVal.bool true),
        ("auto", PyVal.bool true), ("last_error", PyVal.str "boom"),
        ("rule", PyVal.str "get_temperature() > 25")]] []
      [[("pin", PyVal.int 5), ("label", PyVal.str "pump"),
        ("isInverted", PyVal.bool true), ("defaultValue", PyVal.bool false),
        ("defaultAuto", PyVal.bool false),
        ("rule", PyVal.str "get_temperature() > 25")]])
    rfl
    [("pin", PyVal.int 5), ("label", PyVal.str "pump"),
     ("isInverted", PyVal.bool true), ("defaultValue", PyVal.bool false),
     ("defaultAuto", PyVal.bool false),
     ("rule", PyVal.str "get_temperature() > 25")]
    (by decide)


/-- C8: for a requested path that exists in neither compressed nor raw
form, `serve_file` serves the gzipped root index (with the gzip flag that
drives the `Content-Encoding: gzip` header) when the path has no
extension or ends in `.html`, and responds 404 — never the SPA fallback —
when the path carries a non-html extension. -/
theorem serveFile_spa_fallback :
    (∀ (fs : List String) (www path : String),
      path ≠ "/" →
      containsSub path ".." = false →
      fs.contains (www ++ path ++ ".gz") = false →
      fs.contains (www ++ path) = false →
      (containsChar path '.' = false ∨ strEndsWith path ".html" = true) →
      fs.contains (www ++ "/index.html.gz") = true →
      serveFile fs www path = .served (www ++ "/index.html.gz") true) ∧
    (∀ (fs : List String) (www path : String),
      path ≠ "/" →
      containsSub path ".." = false →
      fs.contains (www ++ path ++ ".gz") = false →
      fs.contains (www ++ path) = false →
      containsChar path '.' = true →
      strEndsWith path ".html" = false →
      serveFile fs www path = .notFound) := by
  constructor
  · intro fs www path hroot hdots hgz hraw hext hidx
    simp only [serveFile, if_neg hroot, hdots, hgz, hraw, hidx,
      Bool.false_eq_true, if_false]
    rcases hext with h | h <;> simp [h] <;>
      exact List.mem_of_elem_eq_true hidx
  · intro fs www path hroot hdots hgz hraw hdot hhtml
    simp only [serveFile, if_neg hroot, hdots, hgz, hraw, hdot, hhtml,
      Bool.false_eq_true, if_false]
    simp

/-- Witness for C8: with only the gzipped index on disk, `/dashboard`
gets the gzipped index and `/missing.png` gets 404. -/
theorem serveFile_spa_fallback_witness :
    serveFile ["/www/index.html.gz"] "/www" "/dashboard" =
      .served "/www/index.html.gz" true ∧
    serveFile ["/www/index.html.gz"] "/www" "/missing.png" = .notFound :=
  ⟨serveFile_spa_fallback.1 ["/www/index.html.gz"] "/www" "/dashboard"
      (by decide) (by decide) (by decide) (by decide) (Or.inl (by decide))
      (by decide),
   serveFile_spa_fallback.2 ["/www/index.html.gz"] "/www" "/missing.png"
      (by decide) (by decide) (by decide) (by decide) (by decide)
      (by decide)⟩

theorem setRelayGo_none (rs : List Dict) (ps : Pins) (label state : PyVal)
    (ka f : Bool)
    (h : ∀ r ∈ rs, pyEq (r.getD "label" PyVal.none) label = false) :
    setRelayGo rs ps label state ka f = (rs, ps, .ok f) := by
  induction rs with
  | nil => simp [setRelayGo]
  | cons hd tl ih =>
    have hhd := h hd (by simp)
    have htl : ∀ r ∈ tl, pyEq (r.getD "label" PyVal.none) label = false :=
      fun r hr => h r (by simp [hr])
    simp [setRelayGo, hhd, ih htl]

theorem setRelayGo_pin_unique (rs : List Dict) (i : Nat) (r : Dict)
    (ps : Pins) (label state : PyVal) (ka f : Bool) (pinV : PyVal)
    (lvl : Nat) (hr : rs[i]? = some r)
    (hmatch : pyEq (r.getD "label" PyVal.none) label = true)
    (huniq : ∀ j r', rs[j]? = some r' → j ≠ i →
      pyEq (r'.getD "label" PyVal.none) label = false)
    (hpin : r.get? "pin" = some pinV)
    (hbound : ps.lookup pinV = some lvl) :
    ((setRelayGo rs ps label state ka f).2.1.lookup pinV =
      some (if (r.getD "isInverted" (PyVal.bool false)).truthy
            then (if state.truthy then 0 else 1)
            else (if state.truthy then 1 else 0))) ∧
    (setRelayGo rs ps label state ka f).2.2 = .ok true := by
  induction rs generalizing i ps f with
  | nil => simp at hr
  | cons hd tl ih =>
    cases i with
    | zero =>
      have heq : hd = r := by simpa using hr
      subst heq
      have htl : ∀ r' ∈ tl, pyEq (r'.getD "label" PyVal.none) label = false := by
        intro r' hr'
        obtain ⟨j, hj, hjr⟩ := List.getElem_of_mem hr'
        exact huniq (j + 1) r' (by simpa [hjr] using List.getElem?_eq_getElem hj)
          (by omega)
      cases ka with
      | false =>
        have hpin2 : ((hd.set "value" state).set "auto" (PyVal.bool false)).get? "pin"
            = some pinV := by
          rw [Dict.get?_set_ne _ _ _ _ (by decide),
            Dict.get?_set_ne _ _ _ _ (by decide), hpin]
        have hval2 : ((hd.set "value" state).set "auto" (PyVal.bool false)).getD
            "value" PyVal.none = state := by
          unfold Dict.getD
          rw [Dict.get?_set_ne _ _ _ _ (by decide), Dict.get?_set_self]
          rfl
        have hinv2 : ((hd.set "value" state).set "auto" (PyVal.bool false)).getD
            "isInverted" (PyVal.bool false) =
            hd.getD "isInverted" (PyVal.bool false) := by
          unfold Dict.getD
          rw [Dict.get?_set_ne _ _ _ _ (by decide),
            Dict.get?_set_ne _ _ _ _ (by decide)]
        simp only [setRelayGo, hmatch, if_true, Bool.false_eq_true, if_false,
          hpin2, hval2, hinv2, setPhysicalState, hbound]
        rw [setRelayGo_none tl _ label state false true htl]
        exact ⟨Pins.lookup_set_found ps pinV lvl _ hbound, rfl⟩
      | true =>
        have hpin2 : (hd.set "value" state).get? "pin" = some pinV := by
          rw [Dict.get?_set_ne _ _ _ _ (by decide), hpin]
        have hval2 : (hd.set "value" state).getD "value" PyVal.none = state := by
          unfold Dict.getD
          rw [Dict.get?_set_self]
          rfl
        have hinv2 : (hd.set "value" state).getD "isInverted" (PyVal.bool false) =
            hd.getD "isInverted" (PyVal.bool false) := by
          unfold Dict.getD
          rw [Dict.get?_set_ne _ _ _ _ (by decide)]
        simp only [setRelayGo, hmatch, if_true, hpin2, hval2, hinv2,
          setPhysicalState, hbound]
        rw [setRelayGo_none tl _ label state true true htl]
        exact ⟨Pins.lookup_set_found ps pinV lvl _ hbound, rfl⟩
    | succ i' =>
      simp only [List.getElem?_cons_succ] at hr
      have hhd : pyEq (hd.getD "label" PyVal.none) label = false :=
        huniq 0 hd (by simp) (by omega)
      have huniq' : ∀ j r', tl[j]? = some r' → j ≠ i' →
          pyEq (r'.getD "label" PyVal.none) label = false := by
        intro j r' hj hne
        exact huniq (j + 1) r' (by simpa using hj) (by omega)
      have hrec := ih i' ps f hr huniq' hbound
      simp only [setRelayGo, hhd, Bool.false_eq_true, if_false]
      rcases hgo : setRelayGo tl ps label state ka f with ⟨rest', ps', res⟩
      rw [hgo] at hrec
      simpa using hrec

/-- C2: immediately after `set_relay_by_label`, the physical level written
to the targeted relay's pin is `value XOR inverted` (so logical ON with
`inverted=true` drives the pin LOW), for every combination of boolean
value and inverted flag, and the relay is reported found. -/
theorem setRelay_pin_xor (st : RMState) (label : PyVal) (v inv ka : Bool)
    (i : Nat) (r : Dict) (pinV : PyVal) (lvl : Nat)
    (hr : st.relays[i]? = some r)
    (hmatch : pyEq (r.getD "label" PyVal.none) label = true)
    (huniq : ∀ j r', st.relays[j]? = some r' → j ≠ i →
      pyEq (r'.getD "label" PyVal.none) label = false)
    (hpin : r.get? "pin" = some pinV)
    (hinv : r.getD "isInverted" (PyVal.bool false) = PyVal.bool inv)
    (hbound : st.pins.lookup pinV = some lvl) :
    ((setRelayByLabel st label (PyVal.bool v) ka).1).pins.lookup pinV =
      some (if xor v inv then 1 else 0) ∧
    (setRelayByLabel st label (PyVal.bool v) ka).2 = .ok true := by
  have hgo := setRelayGo_pin_unique st.relays i r st.pins label
    (PyVal.bool v) ka false pinV lvl hr hmatch huniq hpin hbound
  rcases h : setRelayGo st.relays st.pins label (PyVal.bool v) ka false
    with ⟨rs, ps, res⟩
  rw [h] at hgo
  simp only [setRelayByLabel, h]
  rw [hinv] at hgo
  have hxor : (if (PyVal.bool inv).truthy
      then (if (PyVal.bool v).truthy then (0 : Nat) else 1)
      else (if (PyVal.bool v).truthy then 1 else 0)) =
      (if xor v inv then 1 else 0) := by
    cases v <;> cases inv <;> rfl
  rw [hxor] at hgo
  exact hgo

/-- Witness for C2: a relay with `inverted=true` set to logical ON has its
pin driven to physical level 0. -/
theorem setRelay_pin_xor_witness :
    ((setRelayByLabel
        ⟨[[("pin", PyVal.int 4), ("label", PyVal.str "pump"),
           ("isInverted", PyVal.bool true)]], [(PyVal.int 4, 1)], []⟩
        (PyVal.str "pump") (PyVal.bool true) false).1).pins.lookup
      (PyVal.int 4) = some (if xor true true then 1 else 0) ∧
    (setRelayByLabel
        ⟨[[("pin", PyVal.int 4), ("label", PyVal.str "pump"),
           ("isInverted", PyVal.bool true)]], [(PyVal.int 4, 1)], []⟩
        (PyVal.str "pump") (PyVal.bool true) false).2 = .ok true :=
  setRelay_pin_xor
    ⟨[[("pin", PyVal.int 4), ("label", PyVal.str "pump"),
       ("isInverted", PyVal.bool true)]], [(PyVal.int 4, 1)], []⟩
    (PyVal.str "pump") true true false 0
    [("pin", PyVal.int 4), ("label", PyVal.str "pump"),
     ("isInverted", PyVal.bool true)]
    (PyVal.int 4) 1 (by decide) (by decide)
    (by intro j r' hj hne
        cases j with
        | zero => exact absurd rfl hne
        | succ j' => simp at hj)
    (by decide) (by decide) (by decide)

theorem setRelayGo_relays_at (rs : List Dict) (i : Nat) (r : Dict)
    (ps : Pins) (label state : PyVal) (ka f : Bool)
    (hr : rs[i]? = some r)
    (hmatch : pyEq (r.getD "label" PyVal.none) label = true)
    (huniq : ∀ j r', rs[j]? = some r' → j ≠ i →
      pyEq (r'.getD "label" PyVal.none) label = false) :
    ((setRelayGo rs ps label state ka f).1)[i]? =
      some (if ka then r.set "value" state
            else (r.set "value" state).set "auto" (PyVal.bool false)) ∧
    (∀ j, j ≠ i → ((setRelayGo rs ps label state ka f).1)[j]? = rs[j]?) := by
  induction rs generalizing i ps f with
  | nil => simp at hr
  | cons hd tl ih =>
    cases i with
    | zero =>
      have heq : hd = r := by simpa using hr
      subst heq
      have htl : ∀ r' ∈ tl, pyEq (r'.getD "label" PyVal.none) label = false := by
        intro r' hr'
        obtain ⟨j, hj, hjr⟩ := List.getElem_of_mem hr'
        exact huniq (j + 1) r' (by simpa [hjr] using List.getElem?_eq_getElem hj)
          (by omega)
      cases ka with
      | false =>
        simp only [setRelayGo, hmatch, if_true, Bool.false_eq_true, if_false]
        cases hp : ((hd.set "value" state).set "auto" (PyVal.bool false)).get? "pin" with
        | none =>
          refine ⟨by simp, ?_⟩
          intro j hj
          cases j with
          | zero => exact absurd rfl hj
          | succ j' => simp
        | some pinV =>
          simp only []
          rw [setRelayGo_none tl _ label state false true htl]
          refine ⟨by simp, ?_⟩
          intro j hj
          cases j with
          | zero => exact absurd rfl hj
          | succ j' => simp
      | true =>
        simp only [setRelayGo, hmatch, if_true]
        cases hp : (hd.set "value" state).get? "pin" with
        | none =>
          refine ⟨by simp, ?_⟩
          intro j hj
          cases j with
          | zero => exact absurd rfl hj
          | succ j' => simp
        | some pinV =>
          simp only []
          rw [setRelayGo_none tl _ label state true true htl]
          refine ⟨by simp, ?_⟩
          intro j hj
          cases j with
          | zero => exact absurd rfl hj
          | succ j' => simp
    | succ i' =>
      simp only [List.getElem?_cons_succ] at hr
      have hhd : pyEq (hd.getD "label" PyVal.none) label = false :=
        huniq 0 hd (by simp) (by omega)
      have huniq' : ∀ j r', tl[j]? = some r' → j ≠ i' →
          pyEq (r'.getD "label" PyVal.none) label = false := by
        intro j r' hj hne
        exact huniq (j + 1) r' (by simpa using hj) (by omega)
      have hrec := ih i' ps f hr huniq'
      simp only [setRelayGo, hhd, Bool.false_eq_true, if_false]
      rcases hgo : setRelayGo tl ps label state ka f with ⟨rest', ps', res⟩
      rw [hgo] at hrec
      refine ⟨by simpa using hrec.1, ?_⟩
      intro j hj
      cases j with
      | zero => simp
      | succ j' =>
        have := hrec.2 j' (by omega)
        simpa using this

/-- C9: `set_relay_by_label` with `keep_auto=false` sets `value` and
forces `auto=false`; with `keep_auto=true` it sets `value` and leaves
`auto` untouched; when no relay carries the label it reports not-found
and modifies nothing; and `POST /api/relays/control` always invokes the
auto-clearing form (`keep_auto` defaulted to `False`). -/
theorem setRelay_keepAuto_semantics :
    (∀ (st : RMState) (label state : PyVal) (i : Nat) (r : Dict),
      st.relays[i]? = some r →
      pyEq (r.getD "label" PyVal.none) label = true →
      (∀ j r', st.relays[j]? = some r' → j ≠ i →
        pyEq (r'.getD "label" PyVal.none) label = false) →
      (∃ r', ((setRelayByLabel st label state false).1).relays[i]? = some r' ∧
        r'.get? "value" = some state ∧
        r'.get? "auto" = some (PyVal.bool false)) ∧
      (∃ r'', ((setRelayByLabel st label state true).1).relays[i]? = some r'' ∧
        r''.get? "value" = some state ∧
        r''.get? "auto" = r.get? "auto")) ∧
    (∀ (st : RMState) (label state : PyVal) (ka : Bool),
      (∀ r ∈ st.relays, pyEq (r.getD "label" PyVal.none) label = false) →
      setRelayByLabel st label state ka = (st, .ok false)) ∧
    (∀ (st : RMState) (data : Dict),
      data.getD "label" PyVal.none ≠ PyVal.none →
      data.getD "state" PyVal.none ≠ PyVal.none →
      (apiRelaysControlPost st data).1 =
        (setRelayByLabel st (data.getD "label" PyVal.none)
          (data.getD "state" PyVal.none) false).1 ∧
      ((apiRelaysControlPost st data).2 = .ok .success ↔
        (setRelayByLabel st (data.getD "label" PyVal.none)
          (data.getD "state" PyVal.none) false).2 = .ok true)) := by
  refine ⟨?_, ?_, ?_⟩
  · intro st label state i r hr hmatch huniq
    constructor
    · have hat := setRelayGo_relays_at st.relays i r st.pins label state
        false false hr hmatch huniq
      rcases h : setRelayGo st.relays st.pins label state false false
        with ⟨rs, ps, res⟩
      rw [h] at hat
      refine ⟨(r.set "value" state).set "auto" (PyVal.bool false), ?_, ?_, ?_⟩
      · simpa [setRelayByLabel, h] using hat.1
      · rw [Dict.get?_set_ne _ _ _ _ (by decide), Dict.get?_set_self]
      · rw [Dict.get?_set_self]
    · have hat := setRelayGo_relays_at st.relays i r st.pins label state
        true false hr hmatch huniq
      rcases h : setRelayGo st.relays st.pins label state true false
        with ⟨rs, ps, res⟩
      rw [h] at hat
      refine ⟨r.set "value" state, ?_, ?_, ?_⟩
      · simpa [setRelayByLabel, h] using hat.1
      · rw [Dict.get?_set_self]
      · rw [Dict.get?_set_ne _ _ _ _ (by decide)]
  · intro st label state ka hnone
    simp [setRelayByLabel, setRelayGo_none st.relays st.pins label state
      ka false hnone]
  · intro st data hlabel hstate
    unfold apiRelaysControlPost
    rw [if_neg (by simp [hlabel, hstate])]
    rcases h : setRelayByLabel st (data.getD "label" PyVal.none)
      (data.getD "state" PyVal.none) false with ⟨st', res⟩
    match res with
    | .ok true => simp
    | .ok false => simp
    | .error e => simp

/-- Witness for C9: concrete two-relay manager exercising the
keep-auto/clear-auto/not-found cases and the API handler. -/
theorem setRelay_keepAuto_semantics_witness :
    ((∃ r', ((setRelayByLabel
        ⟨[[("pin", PyVal.int 4), ("label", PyVal.str "a"),
           ("auto", PyVal.bool true)]], [(PyVal.int 4, 0)], []⟩
        (PyVal.str "a") (PyVal.bool true) false).1).relays[0]? = some r' ∧
      r'.get? "value" = some (PyVal.bool true) ∧
      r'.get? "auto" = some (PyVal.bool false)) ∧
     (∃ r'', ((setRelayByLabel
        ⟨[[("pin", PyVal.int 4), ("label", PyVal.str "a"),
           ("auto", PyVal.bool true)]], [(PyVal.int 4, 0)], []⟩
        (PyVal.str "a") (PyVal.bool true) true).1).relays[0]? = some r'' ∧
      r''.get? "value" = some (PyVal.bool true) ∧
      r''.get? "auto" = Dict.get? [("pin", PyVal.int 4),
        ("label", PyVal.str "a"), ("auto", PyVal.bool true)] "auto")) ∧
    (setRelayByLabel
        ⟨[[("pin", PyVal.int 4), ("label", PyVal.str "a"),
           ("auto", PyVal.bool true)]], [(PyVal.int 4, 0)], []⟩
        (PyVal.str "zzz") (PyVal.bool true) false) =
      (⟨[[("pin", PyVal.int 4), ("label", PyVal.str "a"),
          ("auto", PyVal.bool true)]], [(PyVal.int 4, 0)], []⟩, .ok false) ∧
    ((apiRelaysControlPost
        ⟨[[("pin", PyVal.int 4), ("label", PyVal.str "a"),
           ("auto", PyVal.bool true)]], [(PyVal.int 4, 0)], []⟩
        [("label", PyVal.str "a"), ("state", PyVal.bool true)]).1 =
      (setRelayByLabel
        ⟨[[("pin", PyVal.int 4), ("label", PyVal.str "a"),
           ("auto", PyVal.bool true)]], [(PyVal.int 4, 0)], []⟩
        (Dict.getD [("label", PyVal.str "a"), ("state", PyVal.bool true)]
          "label" PyVal.none)
        (Dict.getD [("label", PyVal.str "a"), ("state", PyVal.bool true)]
          "state" PyVal.none) false).1 ∧
     ((apiRelaysControlPost
        ⟨[[("pin", PyVal.int 4), ("label", PyVal.str "a"),
           ("auto", PyVal.bool true)]], [(PyVal.int 4, 0)], []⟩
        [("label", PyVal.str "a"), ("state", PyVal.bool true)]).2 =
        .ok .success ↔
      (setRelayByLabel
        ⟨[[("pin", PyVal.int 4), ("label", PyVal.str "a"),
           ("auto", PyVal.bool true)]], [(PyVal.int 4, 0)], []⟩
        (Dict.getD [("label", PyVal.str "a"), ("state", PyVal.bool true)]
          "label" PyVal.none)
        (Dict.getD [("label", PyVal.str "a"), ("state", PyVal.bool true)]
          "state" PyVal.none) false).2 = .ok true)) :=
  ⟨setRelay_keepAuto_semantics.1
      ⟨[[("pin", PyVal.int 4), ("label", PyVal.str "a"),
         ("auto", PyVal.bool true)]], [(PyVal.int 4, 0)], []⟩
      (PyVal.str "a") (PyVal.bool true) 0
      [("pin", PyVal.int 4), ("label", PyVal.str "a"),
       ("auto", PyVal.bool true)]
      (by decide) (by decide)
      (by intro j r' hj hne
          cases j with
          | zero => exact absurd rfl hne
          | succ j' => simp at hj),
   setRelay_keepAuto_semantics.2.1
      ⟨[[("pin", PyVal.int 4), ("label", PyVal.str "a"),
         ("auto", PyVal.bool true)]], [(PyVal.int 4, 0)], []⟩
      (PyVal.str "zzz") (PyVal.bool true) false
      (by intro r hr
          simp only [List.mem_singleton] at hr
          subst hr
          decide),
   setRelay_keepAuto_semantics.2.2
      ⟨[[("pin", PyVal.int 4), ("label", PyVal.str "a"),
         ("auto", PyVal.bool true)]], [(PyVal.int 4, 0)], []⟩
      [("label", PyVal.str "a"), ("state", PyVal.bool true)]
      (by decide) (by decide)⟩

theorem resolveCompiled_stable (O : PyOracle) (st : REState) (rule : String) :
    (resolveCompiled O (resolveCompiled O st rule).2 rule).1 =
      (resolveCompiled O st rule).1 ∧
    (resolveCompiled O (resolveCompiled O st rule).2 rule).2.compileSuccesses =
      (resolveCompiled O st rule).2.compileSuccesses := by
  unfold resolveCompiled
  cases h1 : cacheLookup st.cache (rule, .expr) with
  | some c => simp [h1]
  | none =>
    cases h2 : O.compile rule .expr with
    | ok c => simp [h1, h2, cacheLookup_store_self]
    | error ce =>
      cases ce with
      | otherError => simp [h1, h2]
      | syntaxError =>
        cases h3 : cacheLookup st.cache (rule, .stmts) with
        | some c => simp [h1, h2, h3]
        | none =>
          cases h4 : O.compile rule .stmts with
          | ok c =>
            have hne : ((rule, Mode.stmts) : String × Mode) ≠ (rule, .expr) := by
              simp
            simp [h1, h2, h3, h4, cacheLookup_store_ne _ _ _ _ hne,
              cacheLookup_store_self]
          | error e2 => simp [h1, h2, h3, h4]

/-- Amended C5: evaluating the same verbatim text twice with the same
oracles yields the same result, and the second evaluation performs no
successful compilation (cached programs, keyed by the exact source text
and mode, are reused).  The claim's stronger form — that `compile` is not
invoked at all on the second evaluation — fails for statement-form rules
(see the counterexample): the failing expression-mode compile attempt is
re-run every time. -/
theorem evaluate_idempotent_no_successful_recompile (O : PyOracle)
    (st : REState) (rule : String) :
    (evaluate O (evaluate O st rule).2 rule).1 = (evaluate O st rule).1 ∧
    (evaluate O (evaluate O st rule).2 rule).2.compileSuccesses =
      (evaluate O st rule).2.compileSuccesses := by
  unfold evaluate
  by_cases hempty : pyStripEmpty rule
  · simp [hempty]
  · simp only [hempty, Bool.false_eq_true, if_false]
    have hstable := resolveCompiled_stable O st rule
    rcases h1 : resolveCompiled O st rule with ⟨res1, st1⟩
    rw [h1] at hstable
    rcases res1 with e | cm
    · rcases h2 : resolveCompiled O st1 rule with ⟨res2, st2⟩
      rw [h2] at hstable
      obtain ⟨hres, hsucc⟩ := hstable
      subst hres
      exact ⟨rfl, by simpa using hsucc⟩
    · rcases h2 : resolveCompiled O st1 rule with ⟨res2, st2⟩
      rw [h2] at hstable
      obtain ⟨hres, hsucc⟩ := hstable
      subst hres
      obtain ⟨c, m⟩ := cm
      exact ⟨rfl, by simpa using hsucc⟩

/-- Counterexample to C5 as stated: for a statement-form rule (expression
compilation fails with `SyntaxError`, statement compilation succeeds) the
`compile` counter rises from 2 to 3 on the second evaluation of the very
same text — the failing expression-mode attempt is repeated. -/
theorem evaluate_recompiles_counterexample :
    (evaluate
        (PyOracle.mk
          (fun _ m => match m with
            | .expr => .error .syntaxError
            | .stmts => .ok 0)
          (fun _ => .ok PyVal.none) (fun _ => .ok ([] : Dict)))
        ⟨[], 0, 0⟩ "result = True").2.compileCalls = 2 ∧
    (evaluate
        (PyOracle.mk
          (fun _ m => match m with
            | .expr => .error .syntaxError
            | .stmts => .ok 0)
          (fun _ => .ok PyVal.none) (fun _ => .ok ([] : Dict)))
        (evaluate
          (PyOracle.mk
            (fun _ m => match m with
              | .expr => .error .syntaxError
              | .stmts => .ok 0)
            (fun _ => .ok PyVal.none) (fun _ => .ok ([] : Dict)))
          ⟨[], 0, 0⟩ "result = True").2 "result = True").2.compileCalls = 3 := by
  constructor <;> rfl

/-- Counterexample to C4 as stated: with a present-but-failing AHT21 and
no DS18B20 fallback, an elapsed temperature/humidity refresh does NOT
keep the previous `current` value (it becomes `None`) and DOES advance
`previous` (to the former current).  `update_all` itself stays total —
only the state-preservation part of the claim fails. -/
theorem updateAll_read_failure_counterexample :
    (updateAll
      (SensorHW.mk true (.error ()) (.error ()) false (.ok ()) (.error ())
        false (.error ()) false (.error ()) false (.error ()) 0)
      (SensorState.mk (PyVal.int 25) (PyVal.int 50) PyVal.none false false
        PyVal.none PyVal.none PyVal.none false false 0 0 0 0 2000 500 50)
      2000).temperature ≠
      (SensorState.mk (PyVal.int 25) (PyVal.int 50) PyVal.none false false
        PyVal.none PyVal.none PyVal.none false false 0 0 0 0 2000 500 50).temperature ∧
    (updateAll
      (SensorHW.mk true (.error ()) (.error ()) false (.ok ()) (.error ())
        false (.error ()) false (.error ()) false (.error ()) 0)
      (SensorState.mk (PyVal.int 25) (PyVal.int 50) PyVal.none false false
        PyVal.none PyVal.none PyVal.none false false 0 0 0 0 2000 500 50)
      2000).last_temperature ≠
      (SensorState.mk (PyVal.int 25) (PyVal.int 50) PyVal.none false false
        PyVal.none PyVal.none PyVal.none false false 0 0 0 0 2000 500 50).last_temperature := by
  constructor <;> decide

/-- Amended C4: hardware read failures never escape `update_all` (the
embedding is a total function: every read is wrapped), but on an AHT21
failure with no DS18B20 fallback the temperature/humidity channel sets
`current` to `None` and advances `previous` to the former current — the
code does not keep the old `current` nor freeze `previous`. -/
theorem updateAll_aht_failure (hw : SensorHW) (st : SensorState) (now : Int)
    (e : Unit) (hp : hw.ahtPresent = true) (ht : hw.ahtT = .error e)
    (hd : hw.dsPresent = false)
    (hdue : st.temp_humidity_interval ≤ now - st.last_temp_humidity_read) :
    (updateAll hw st now).temperature = PyVal.none ∧
    (updateAll hw st now).humidity = PyVal.none ∧
    (updateAll hw st now).last_temperature = st.temperature ∧
    (updateAll hw st now).last_humidity = st.humidity := by
  have hread : readTempHumidity hw = (PyVal.none, PyVal.none) := by
    simp [readTempHumidity, hp, ht, hd]
  unfold updateAll
  rw [hread]
  simp only [if_pos hdue]
  split <;> split <;> simp

/-- Witness for the amended C4 theorem at a concrete failing read. -/
theorem updateAll_aht_failure_witness :
    (updateAll
      (SensorHW.mk true (.error ()) (.error ()) false (.ok ()) (.error ())
        false (.error ()) false (.error ()) false (.error ()) 0)
      (SensorState.mk (PyVal.int 25) (PyVal.int 50) PyVal.none false false
        PyVal.none PyVal.none PyVal.none false false 0 0 0 0 2000 500 50)
      2000).temperature = PyVal.none ∧
    (updateAll
      (SensorHW.mk true (.error ()) (.error ()) false (.ok ()) (.error ())
        false (.error ()) false (.error ()) false (.error ()) 0)
      (SensorState.mk (PyVal.int 25) (PyVal.int 50) PyVal.none false false
        PyVal.none PyVal.none PyVal.none false false 0 0 0 0 2000 500 50)
      2000).humidity = PyVal.none ∧
    (updateAll
      (SensorHW.mk true (.error ()) (.error ()) false (.ok ()) (.error ())
        false (.error ()) false (.error ()) false (.error ()) 0)
      (SensorState.mk (PyVal.int 25) (PyVal.int 50) PyVal.none false false
        PyVal.none PyVal.none PyVal.none false false 0 0 0 0 2000 500 50)
      2000).last_temperature =
      (SensorState.mk (PyVal.int 25) (PyVal.int 50) PyVal.none false false
        PyVal.none PyVal.none PyVal.none false false 0 0 0 0 2000 500 50).temperature ∧
    (updateAll
      (SensorHW.mk true (.error ()) (.error ()) false (.ok ()) (.error ())
        false (.error ()) false (.error ()) false (.error ()) 0)
      (SensorState.mk (PyVal.int 25) (PyVal.int 50) PyVal.none false false
        PyVal.none PyVal.none PyVal.none false false 0 0 0 0 2000 500 50)
      2000).last_humidity =
      (SensorState.mk (PyVal.int 25) (PyVal.int 50) PyVal.none false false
        PyVal.none PyVal.none PyVal.none false false 0 0 0 0 2000 500 50).humidity :=
  updateAll_aht_failure
    (SensorHW.mk true (.error ()) (.error ()) false (.ok ()) (.error ())
      false (.error ()) false (.error ()) false (.error ()) 0)
    (SensorState.mk (PyVal.int 25) (PyVal.int 50) PyVal.none false false
      PyVal.none PyVal.none PyVal.none false false 0 0 0 0 2000 500 50)
    2000 () rfl rfl rfl (by decide)

theorem seedRelay_get_other (d : Dict) (k : String) (h1 : k ≠ "value")
    (h2 : k ≠ "auto") (h3 : k ≠ "last_error") :
    (seedRelay d).get? k = d.get? k := by
  have hif : ∀ (P : Prop) (inst : Decidable P) (dd : Dict) (kk : String)
      (v : PyVal), kk ≠ k →
      (@ite _ P inst dd (dd.set kk v)).get? k = dd.get? k := by
    intro P inst dd kk v hkk
    split
    · rfl
    · exact Dict.get?_set_ne dd kk k v hkk
  simp only [seedRelay]
  rw [hif _ _ _ _ _ (Ne.symm h3), hif _ _ _ _ _ (Ne.symm h2),
    hif _ _ _ _ _ (Ne.symm h1)]

theorem seedStep_get (dd : Dict) (kk : String) (v : PyVal) :
    (if dd.hasKey kk = true then dd else dd.set kk v).get? kk =
      some (dd.getD kk v) := by
  by_cases h : dd.hasKey kk = true
  · rcases Option.isSome_iff_exists.mp (by simpa [Dict.hasKey] using h)
      with ⟨w, hw⟩
    simp [h, Dict.getD, hw]
  · have hn : dd.get? kk = Option.none := by
      rcases he : dd.get? kk with _ | w
      · rfl
      · exact absurd (by simp [Dict.hasKey, he]) h
    simp [h, Dict.get?_set_self, Dict.getD, hn]

theorem seedStep_preserve (dd : Dict) (kk : String) (v : PyVal) (k' : String)
    (h : kk ≠ k') :
    (if dd.hasKey kk = true then dd else dd.set kk v).get? k' =
      dd.get? k' := by
  by_cases hk : dd.hasKey kk = true
  · simp [hk]
  · simp [hk, Dict.get?_set_ne dd kk k' v h]

theorem seedRelay_runtime_fields (d : Dict) :
    (seedRelay d).get? "value" = some (d.getD "value" (PyVal.bool false)) ∧
    (seedRelay d).get? "auto" = some (d.getD "auto" (PyVal.bool false)) ∧
    (seedRelay d).get? "last_error" = some (d.getD "last_error" PyVal.none) := by
  simp only [seedRelay]
  refine ⟨?_, ?_, ?_⟩
  · rw [seedStep_preserve _ _ _ _ (by decide),
      seedStep_preserve _ _ _ _ (by decide), seedStep_get]
  · rw [seedStep_preserve _ _ _ _ (by decide), seedStep_get]
    have := seedStep_preserve d "value" (PyVal.bool false) "auto" (by decide)
    simp [Dict.getD, this]
  · rw [seedStep_get]
    have h1 := seedStep_preserve d "value" (PyVal.bool false) "last_error"
      (by decide)
    have h2 := seedStep_preserve
      (if d.hasKey "value" = true then d else d.set "value" (PyVal.bool false))
      "auto" (PyVal.bool false) "last_error" (by decide)
    simp [Dict.getD, h1, h2]

theorem relaysForSave_ok (rs : List Dict)
    (h : ∀ d ∈ rs, (d.get? "pin").isSome ∧ (d.get? "label").isSome) :
    ∃ cs, relaysForSave rs = .ok cs := by
  induction rs with
  | nil => exact ⟨[], rfl⟩
  | cons hd tl ih =>
    obtain ⟨hp, hl⟩ := h hd (by simp)
    rcases Option.isSome_iff_exists.mp hp with ⟨p, hp'⟩
    rcases Option.isSome_iff_exists.mp hl with ⟨l, hl'⟩
    obtain ⟨cs, hcs⟩ := ih (fun d hd' => h d (by simp [hd']))
    refine ⟨[("pin", p), ("label", l),
      ("isInverted", hd.getD "isInverted" (PyVal.bool false)),
      ("defaultValue", hd.getD "defaultValue" (PyVal.bool false)),
      ("defaultAuto", hd.getD "defaultAuto" (PyVal.bool false)),
      ("rule", hd.getD "rule" (PyVal.str "[\"NOP\"]"))] :: cs, ?_⟩
    simp only [relaysForSave, relayCopyForSave, hp', hl', hcs]

theorem setupPins_ok (vp : Int → Bool) (rs : List Dict) (ps : Pins)
    (h : ∀ d ∈ rs, ∃ n : Int, d.get? "pin" = some (PyVal.int n)) :
    (setupPins vp rs ps).2 = .ok () := by
  induction rs generalizing ps with
  | nil => rfl
  | cons hd tl ih =>
    obtain ⟨n, hn⟩ := h hd (by simp)
    have htl : ∀ d ∈ tl, ∃ n : Int, d.get? "pin" = some (PyVal.int n) :=
      fun d hd' => h d (by simp [hd'])
    have hget : hd.getD "pin" PyVal.none = PyVal.int n := by
      simp [Dict.getD, hn]
    simp only [setupPins, hget]
    rw [if_neg (by simp)]
    simp only [pyGeZero, PyVal.toNum?, Option.getD_some]
    cases hge : decide (0 ≤ n) with
    | false =>
      simp only []
      exact ih ps htl
    | true =>
      simp only []
      by_cases hv : vp n = true
      · rw [if_pos hv]
        exact ih _ htl
      · rw [if_neg hv]
        exact ih ps htl

/-- Counterexample to C6 as stated: a relay list binding pin 5 to two
different labels is accepted by `update_config` (returns `True`, no
duplicate-pin validation), and a relay with `defaultValue=true` but no
`value` field is seeded with `value=False`, not its declared default. -/
theorem updateConfig_counterexample :
    (updateConfig (fun _ => true) ⟨[], [], []⟩
      (.relayList
        [[("pin", PyVal.int 5), ("label", PyVal.str "a"),
          ("defaultValue", PyVal.bool true)],
         [("pin", PyVal.int 5), ("label", PyVal.str "b")]])).2 = .ok true ∧
    ((updateConfig (fun _ => true) ⟨[], [], []⟩
      (.relayList
        [[("pin", PyVal.int 5), ("label", PyVal.str "a"),
          ("defaultValue", PyVal.bool true)],
         [("pin", PyVal.int 5), ("label", PyVal.str "b")]])).1.relays[0]?).map
      (fun d => d.get? "value") = some (some (PyVal.bool false)) := by
  constructor <;> rfl

/-- Amended C6: `update_config` performs no duplicate-pin validation — it
accepts every well-formed relay list, duplicate pins included — and seeds
missing runtime fields with the constants `value=False`, `auto=False`,
`last_error=None`, not with the relay's declared defaults. -/
theorem updateConfig_accepts_and_seeds (vp : Int → Bool) (st : RMState)
    (rs : List Dict)
    (hwf : ∀ d ∈ rs, (∃ n : Int, d.get? "pin" = some (PyVal.int n)) ∧
      (d.get? "label").isSome) :
    (updateConfig vp st (.relayList rs)).2 = .ok true ∧
    (updateConfig vp st (.relayList rs)).1.relays = rs.map seedRelay ∧
    (∀ d : Dict,
      (seedRelay d).get? "value" = some (d.getD "value" (PyVal.bool false)) ∧
      (seedRelay d).get? "auto" = some (d.getD "auto" (PyVal.bool false)) ∧
      (seedRelay d).get? "last_error" =
        some (d.getD "last_error" PyVal.none)) := by
  have hseedwf : ∀ d ∈ rs.map seedRelay,
      (d.get? "pin").isSome ∧ (d.get? "label").isSome := by
    intro d hd
    rcases List.mem_map.mp hd with ⟨d0, hd0, rfl⟩
    obtain ⟨⟨n, hn⟩, hl⟩ := hwf d0 hd0
    constructor
    · rw [seedRelay_get_other d0 "pin" (by decide) (by decide) (by decide), hn]
      rfl
    · rw [seedRelay_get_other d0 "label" (by decide) (by decide) (by decide)]
      exact hl
  have hseedpin : ∀ d ∈ rs.map seedRelay,
      ∃ n : Int, d.get? "pin" = some (PyVal.int n) := by
    intro d hd
    rcases List.mem_map.mp hd with ⟨d0, hd0, rfl⟩
    obtain ⟨⟨n, hn⟩, _⟩ := hwf d0 hd0
    exact ⟨n, by
      rw [seedRelay_get_other d0 "pin" (by decide) (by decide) (by decide)]
      exact hn⟩
  obtain ⟨cs, hcs⟩ := relaysForSave_ok (rs.map seedRelay) hseedwf
  have hsave : saveConfig { st with relays := rs.map seedRelay } =
      .ok { st with relays := rs.map seedRelay, persisted := cs } := by
    simp [saveConfig, hcs]
  have hsp := setupPins_ok vp (rs.map seedRelay) st.pins hseedpin
  rcases hsp' : setupPins vp (rs.map seedRelay) st.pins with ⟨ps', res⟩
  rw [hsp'] at hsp
  simp only at hsp
  subst hsp
  refine ⟨?_, ?_, fun d => seedRelay_runtime_fields d⟩ <;>
    simp [updateConfig, hsave, hsp']

/-- Witness for the amended C6 theorem at the duplicate-pin input. -/
theorem updateConfig_accepts_and_seeds_witness :
    (updateConfig (fun _ => true) ⟨[], [], []⟩
      (.relayList
        [[("pin", PyVal.int 5), ("label", PyVal.str "a"),
          ("defaultValue", PyVal.bool true)],
         [("pin", PyVal.int 5), ("label", PyVal.str "b")]])).2 = .ok true ∧
    (updateConfig (fun _ => true) ⟨[], [], []⟩
      (.relayList
        [[("pin", PyVal.int 5), ("label", PyVal.str "a"),
          ("defaultValue", PyVal.bool true)],
         [("pin", PyVal.int 5), ("label", PyVal.str "b")]])).1.relays =
      List.map seedRelay
        [[("pin", PyVal.int 5), ("label", PyVal.str "a"),
          ("defaultValue", PyVal.bool true)],
         [("pin", PyVal.int 5), ("label", PyVal.str "b")]] ∧
    (∀ d : Dict,
      (seedRelay d).get? "value" = some (d.getD "value" (PyVal.bool false)) ∧
      (seedRelay d).get? "auto" = some (d.getD "auto" (PyVal.bool false)) ∧
      (seedRelay d).get? "last_error" =
        some (d.getD "last_error" PyVal.none)) :=
  updateConfig_accepts_and_seeds (fun _ => true) ⟨[], [], []⟩
    [[("pin", PyVal.int 5), ("label", PyVal.str "a"),
      ("defaultValue", PyVal.bool true)],
     [("pin", PyVal.int 5), ("label", PyVal.str "b")]]
    (by intro d hd
        fin_cases hd <;> exact ⟨⟨5, rfl⟩, by decide⟩)

theorem setErrGo_len (label msg : PyVal) (rs : List Dict) :
    ((setErrGo label msg rs).1).length = rs.length := by
  induction rs with
  | nil => rfl
  | cons hd tl ih =>
    by_cases h : pyEq (hd.getD "label" PyVal.none) label = true
    · simp [setErrGo, h]
    · simp only [setErrGo, h, Bool.false_eq_true, if_false]
      simp [ih]

theorem setErrGo_get_at (label msg : PyVal) (rs : List Dict) (key : String)
    (hkey : key ≠ "last_error") (k : Nat) :
    (((setErrGo label msg rs).1)[k]?).map (fun d => d.get? key) =
      (rs[k]?).map (fun d => d.get? key) := by
  induction rs generalizing k with
  | nil => rfl
  | cons hd tl ih =>
    by_cases h : pyEq (hd.getD "label" PyVal.none) label = true
    · simp only [setErrGo, h, if_true]
      cases k with
      | zero => simp [Dict.get?_set_ne _ _ _ _ (Ne.symm hkey)]
      | succ k' => simp
    · simp only [setErrGo, h, Bool.false_eq_true, if_false]
      cases k with
      | zero => simp
      | succ k' => simpa using ih k'

theorem setErrGo_pres (label msg : PyVal) (rs : List Dict) (k : Nat)
    (d : Dict) (hd : rs[k]? = some d)
    (hnm : pyEq (d.getD "label" PyVal.none) label = false) :
    ((setErrGo label msg rs).1)[k]? = some d := by
  induction rs generalizing k with
  | nil => simp at hd
  | cons hd0 tl ih =>
    by_cases h : pyEq (hd0.getD "label" PyVal.none) label = true
    · simp only [setErrGo, h, if_true]
      cases k with
      | zero =>
        have : hd0 = d := by simpa using hd
        subst this
        rw [h] at hnm
        exact absurd hnm (by simp)
      | succ k' => simpa using hd
    · simp only [setErrGo, h, Bool.false_eq_true, if_false]
      cases k with
      | zero => simpa using hd
      | succ k' =>
        simp only [List.getElem?_cons_succ] at hd ⊢
        exact ih k' hd

theorem setErrGo_first (label msg : PyVal) (rs : List Dict) (i : Nat)
    (d : Dict) (hd : rs[i]? = some d)
    (hm : pyEq (d.getD "label" PyVal.none) label = true)
    (hfirst : ∀ k d', k < i → rs[k]? = some d' →
      pyEq (d'.getD "label" PyVal.none) label = false) :
    ((setErrGo label msg rs).1)[i]? = some (d.set "last_error" msg) ∧
    (∀ k, k ≠ i → ((setErrGo label msg rs).1)[k]? = rs[k]?) := by
  induction rs generalizing i with
  | nil => simp at hd
  | cons hd0 tl ih =>
    cases i with
    | zero =>
      have heq : hd0 = d := by simpa using hd
      subst heq
      simp only [setErrGo, hm, if_true]
      refine ⟨by simp, ?_⟩
      intro k hk
      cases k with
      | zero => exact absurd rfl hk
      | succ k' => simp
    | succ i' =>
      have h0 : pyEq (hd0.getD "label" PyVal.none) label = false :=
        hfirst 0 hd0 (by omega) (by simp)
      simp only [List.getElem?_cons_succ] at hd
      have hfirst' : ∀ k d', k < i' → tl[k]? = some d' →
          pyEq (d'.getD "label" PyVal.none) label = false := by
        intro k d' hk hk'
        exact hfirst (k + 1) d' (by omega) (by simpa using hk')
      obtain ⟨h1, h2⟩ := ih i' hd hfirst'
      simp only [setErrGo, h0, Bool.false_eq_true, if_false]
      refine ⟨by simpa using h1, ?_⟩
      intro k hk
      cases k with
      | zero => simp
      | succ k' =>
        simp only [List.getElem?_cons_succ]
        exact h2 k' (by omega)

theorem setRelayGo_len (rs : List Dict) (ps : Pins) (label state : PyVal)
    (ka f : Bool) :
    ((setRelayGo rs ps label state ka f).1).length = rs.length := by
  induction rs generalizing ps f with
  | nil => rfl
  | cons hd tl ih =>
    by_cases h : pyEq (hd.getD "label" PyVal.none) label = true
    · simp only [setRelayGo, h, if_true]
      cases hp : (if ka then hd.set "value" state
          else (hd.set "value" state).set "auto" (PyVal.bool false)).get? "pin" with
      | none =>
        cases ka <;> simp_all
      | some pinV =>
        cases ka <;> simp_all
    · simp only [setRelayGo, h, Bool.false_eq_true, if_false]
      simp [ih]

theorem setRelayGo_get_at (rs : List Dict) (ps : Pins) (label state : PyVal)
    (ka f : Bool) (key : String) (h1 : key ≠ "value") (h2 : key ≠ "auto")
    (k : Nat) :
    (((setRelayGo rs ps label state ka f).1)[k]?).map (fun d => d.get? key) =
      (rs[k]?).map (fun d => d.get? key) := by
  induction rs generalizing ps f k with
  | nil => rfl
  | cons hd tl ih =>
    have hkey : ∀ d : Dict,
        (if ka then d.set "value" state
         else (d.set "value" state).set "auto" (PyVal.bool false)).get? key =
        d.get? key := by
      intro d
      cases ka <;>
        simp [Dict.get?_set_ne _ _ _ _ (Ne.symm h1),
          Dict.get?_set_ne _ _ _ _ (Ne.symm h2)]
    by_cases h : pyEq (hd.getD "label" PyVal.none) label = true
    · simp only [setRelayGo, h, if_true]
      cases hp : (if ka then hd.set "value" state
          else (hd.set "value" state).set "auto" (PyVal.bool false)).get? "pin" with
      | none =>
        cases k with
        | zero => cases ka <;> simp_all
        | succ k' => cases ka <;> simp_all
      | some pinV =>
        cases k with
        | zero => cases ka <;> simp_all
        | succ k' =>
          cases ka <;> simp_all
    · simp only [setRelayGo, h, Bool.false_eq_true, if_false]
      cases k with
      | zero => simp
      | succ k' => simpa using ih ps f k'

theorem setRelayGo_pres (rs : List Dict) (ps : Pins) (label state : PyVal)
    (ka f : Bool) (k : Nat) (d : Dict) (hd : rs[k]? = some d)
    (hnm : pyEq (d.getD "label" PyVal.none) label = false) :
    ((setRelayGo rs ps label state ka f).1)[k]? = some d := by
  induction rs generalizing ps f k with
  | nil => simp at hd
  | cons hd0 tl ih =>
    by_cases h : pyEq (hd0.getD "label" PyVal.none) label = true
    · simp only [setRelayGo, h, if_true]
      cases k with
      | zero =>
        have : hd0 = d := by simpa using hd
        subst this
        rw [h] at hnm
        exact absurd hnm (by simp)
      | succ k' =>
        simp only [List.getElem?_cons_succ] at hd
        cases hp : (if ka then hd0.set "value" state
            else (hd0.set "value" state).set "auto" (PyVal.bool false)).get? "pin" with
        | none => cases ka <;> simp_all
        | some pinV =>
          cases ka <;> (try simp only []) <;>
            simpa using ih _ true k' hd
    · simp only [setRelayGo, h, Bool.false_eq_true, if_false]
      cases k with
      | zero => simpa using hd
      | succ k' =>
        simp only [List.getElem?_cons_succ] at hd ⊢
        simpa using ih ps f k' hd

theorem setRelayError_pres (s : RMState) (label msg : PyVal) (i : Nat)
    (di : Dict) (hdi : s.relays[i]? = some di)
    (hnm : pyEq (di.getD "label" PyVal.none) label = false) :
    ((setRelayError s label msg).1).relays[i]? = some di := by
  rcases h : setErrGo label msg s.relays with ⟨rs, b⟩
  have hp := setErrGo_pres label msg s.relays i di hdi hnm
  rw [h] at hp
  simpa [setRelayError, h] using hp

theorem setRelayError_labels (s : RMState) (label msg : PyVal) (k : Nat) :
    ((((setRelayError s label msg).1).relays[k]?).map
      (fun d => d.get? "label")) =
    ((s.relays[k]?).map (fun d => d.get? "label")) := by
  rcases h : setErrGo label msg s.relays with ⟨rs, b⟩
  have hp := setErrGo_get_at label msg s.relays "label" (by decide) k
  rw [h] at hp
  simpa [setRelayError, h] using hp

theorem setRelayError_len (s : RMState) (label msg : PyVal) :
    ((setRelayError s label msg).1).relays.length = s.relays.length := by
  rcases h : setErrGo label msg s.relays with ⟨rs, b⟩
  have hp := setErrGo_len label msg s.relays
  rw [h] at hp
  simpa [setRelayError, h] using hp

theorem setRelayByLabel_pres (s : RMState) (label state : PyVal) (ka : Bool)
    (i : Nat) (di : Dict) (hdi : s.relays[i]? = some di)
    (hnm : pyEq (di.getD "label" PyVal.none) label = false) :
    ((setRelayByLabel s label state ka).1).relays[i]? = some di := by
  rcases h : setRelayGo s.relays s.pins label state ka false with ⟨rs, ps, res⟩
  have hp := setRelayGo_pres s.relays s.pins label state ka false i di hdi hnm
  rw [h] at hp
  simpa [setRelayByLabel, h] using hp

theorem setRelayByLabel_labels (s : RMState) (label state : PyVal)
    (ka : Bool) (k : Nat) :
    ((((setRelayByLabel s label state ka).1).relays[k]?).map
      (fun d => d.get? "label")) =
    ((s.relays[k]?).map (fun d => d.get? "label")) := by
  rcases h : setRelayGo s.relays s.pins label state ka false with ⟨rs, ps, res⟩
  have hp := setRelayGo_get_at s.relays s.pins label state ka false "label"
    (by decide) (by decide) k
  rw [h] at hp
  simpa [setRelayByLabel, h] using hp

theorem setRelayByLabel_len (s : RMState) (label state : PyVal) (ka : Bool) :
    ((setRelayByLabel s label state ka).1).relays.length =
      s.relays.length := by
  rcases h : setRelayGo s.relays s.pins label state ka false with ⟨rs, ps, res⟩
  have hp := setRelayGo_len s.relays s.pins label state ka false
  rw [h] at hp
  simpa [setRelayByLabel, h] using hp

theorem tickRelay_preserves (ev : PyVal → Except String PyVal) (s : RMState)
    (j i : Nat) (di : Dict) (hdi : s.relays[i]? = some di)
    (hlab : ∀ dj, s.relays[j]? = some dj →
      pyEq (di.getD "label" PyVal.none)
        (dj.getD "label" (PyVal.str "Unknown")) = false) :
    (tickRelay ev s j).relays[i]? = some di := by
  unfold tickRelay
  cases hj : s.relays[j]? with
  | none => exact hdi
  | some dj =>
    have hl := hlab dj hj
    simp only []
    split
    · exact hdi
    · split
      · exact hdi
      · cases hev : ev (dj.getD "rule" (PyVal.str "")) with
        | error msg => exact setRelayError_pres s _ _ i di hdi hl
        | ok result =>
          have h1 : ((clearRelayError s
              (dj.getD "label" (PyVal.str "Unknown"))).1).relays[i]? =
              some di :=
            setRelayError_pres s _ PyVal.none i di hdi hl
          cases result with
          | bool b =>
            simp only []
            cases h2 : ((clearRelayError s
                (dj.getD "label" (PyVal.str "Unknown"))).1).relays[j]? with
            | none => exact h1
            | some relay2 =>
              simp only []
              by_cases hval :
                pyEq (PyVal.bool b) (relay2.getD "value" PyVal.none) = true
              · rw [if_pos hval]
                exact h1
              · rw [if_neg hval]
                rcases hset : setRelayByLabel
                  ((clearRelayError s
                    (dj.getD "label" (PyVal.str "Unknown"))).1)
                  (dj.getD "label" (PyVal.str "Unknown")) (PyVal.bool b) true
                  with ⟨st2, res⟩
                have h3 := setRelayByLabel_pres
                  ((clearRelayError s
                    (dj.getD "label" (PyVal.str "Unknown"))).1)
                  (dj.getD "label" (PyVal.str "Unknown")) (PyVal.bool b) true
                  i di h1 hl
                rw [hset] at h3
                cases res with
                | ok fnd => exact h3
                | error e => exact setRelayError_pres st2 _ _ i di h3 hl
          | none => exact h1
          | int n => exact h1
          | str w => exact h1

theorem tickRelay_labels (ev : PyVal → Except String PyVal) (s : RMState)
    (j : Nat) :
    (tickRelay ev s j).relays.length = s.relays.length ∧
    ∀ k : Nat,
      (((tickRelay ev s j).relays[k]?).map (fun d => d.get? "label")) =
      ((s.relays[k]?).map (fun d => d.get? "label")) := by
  unfold tickRelay
  cases hj : s.relays[j]? with
  | none => exact ⟨rfl, fun k => rfl⟩
  | some dj =>
    simp only []
    split
    · exact ⟨rfl, fun k => rfl⟩
    · split
      · exact ⟨rfl, fun k => rfl⟩
      · cases hev : ev (dj.getD "rule" (PyVal.str "")) with
        | error msg =>
          exact ⟨setRelayError_len s _ _, fun k => setRelayError_labels s _ _ k⟩
        | ok result =>
          cases result with
          | bool b =>
            simp only []
            cases h2 : ((clearRelayError s
                (dj.getD "label" (PyVal.str "Unknown"))).1).relays[j]? with
            | none =>
              exact ⟨setRelayError_len s _ _,
                fun k => setRelayError_labels s _ _ k⟩
            | some relay2 =>
              simp only []
              by_cases hval :
                pyEq (PyVal.bool b) (relay2.getD "value" PyVal.none) = true
              · rw [if_pos hval]
                exact ⟨setRelayError_len s _ _,
                  fun k => setRelayError_labels s _ _ k⟩
              · rw [if_neg hval]
                rcases hset : setRelayByLabel
                  ((clearRelayError s
                    (dj.getD "label" (PyVal.str "Unknown"))).1)
                  (dj.getD "label" (PyVal.str "Unknown")) (PyVal.bool b) true
                  with ⟨st2, res⟩
                have hlen2 : st2.relays.length = s.relays.length := by
                  have := setRelayByLabel_len
                    ((clearRelayError s
                      (dj.getD "label" (PyVal.str "Unknown"))).1)
                    (dj.getD "label" (PyVal.str "Unknown")) (PyVal.bool b) true
                  rw [hset] at this
                  simp only at this
                  exact this.trans (setRelayError_len s _ _)
                have hlab2 : ∀ k : Nat, ((st2.relays[k]?).map
                    (fun d => d.get? "label")) =
                    ((s.relays[k]?).map (fun d => d.get? "label")) := by
                  intro k
                  have := setRelayByLabel_labels
                    ((clearRelayError s
                      (dj.getD "label" (PyVal.str "Unknown"))).1)
                    (dj.getD "label" (PyVal.str "Unknown")) (PyVal.bool b) true k
                  rw [hset] at this
                  rw [this]
                  exact setRelayError_labels s _ _ k
                cases res with
                | ok fnd => exact ⟨hlen2, hlab2⟩
                | error e =>
                  refine ⟨?_, ?_⟩
                  · rw [setRelayError_len st2 _ _]
                    exact hlen2
                  · intro k
                    rw [setRelayError_labels st2 _ _ k]
                    exact hlab2 k
          | none =>
            exact ⟨setRelayError_len s _ _,
              fun k => setRelayError_labels s _ _ k⟩
          | int n =>
            exact ⟨setRelayError_len s _ _,
              fun k => setRelayError_labels s _ _ k⟩
          | str w =>
            exact ⟨setRelayError_len s _ _,
              fun k => setRelayError_labels s _ _ k⟩

theorem tickRelay_clears_error (ev : PyVal → Except String PyVal)
    (s : RMState) (i : Nat) (r : Dict) (hr : s.relays[i]? = some r)
    (hauto : (r.getD "auto" (PyVal.bool false)).truthy = true)
    (hrule : (r.getD "rule" (PyVal.str "")).truthy = true)
    (hnop : pyEq (r.getD "rule" (PyVal.str "")) (PyVal.str "[\"NOP\"]") = false)
    (hev : ev (r.getD "rule" (PyVal.str "")) = .ok PyVal.none)
    (hfirst : ∀ k d', k < i → s.relays[k]? = some d' →
      pyEq (d'.getD "label" PyVal.none)
        (r.getD "label" (PyVal.str "Unknown")) = false)
    (hself : pyEq (r.getD "label" PyVal.none)
      (r.getD "label" (PyVal.str "Unknown")) = true) :
    (tickRelay ev s i).relays[i]? = some (r.set "last_error" PyVal.none) ∧
    (∀ k : Nat, k ≠ i → (tickRelay ev s i).relays[k]? = s.relays[k]?) := by
  unfold tickRelay
  rw [hr]
  simp only []
  rw [if_neg (by simp [hauto]), if_neg (by simp [hrule, hnop]), hev]
  have hfm := setErrGo_first (r.getD "label" (PyVal.str "Unknown"))
    PyVal.none s.relays i r hr hself hfirst
  rcases hgo : setErrGo (r.getD "label" (PyVal.str "Unknown")) PyVal.none
    s.relays with ⟨rs, b⟩
  rw [hgo] at hfm
  constructor
  · simpa [clearRelayError, setRelayError, hgo] using hfm.1
  · intro k hk
    have := hfm.2 k hk
    simpa [clearRelayError, setRelayError, hgo] using this

theorem foldl_tick_preserves (ev : PyVal → Except String PyVal)
    (st0 : RMState)
    (hlabels : ∀ (k : Nat) d, st0.relays[k]? = some d →
      (d.get? "label").isSome = true)
    (hdistinct : ∀ (k l : Nat) dk dl, st0.relays[k]? = some dk →
      st0.relays[l]? = some dl → k ≠ l →
      pyEq (dk.getD "label" PyVal.none) (dl.getD "label" PyVal.none) = false)
    (i : Nat) (ri di : Dict) (hri : st0.relays[i]? = some ri)
    (hdil : di.get? "label" = ri.get? "label") :
    ∀ (L : List Nat) (s : RMState),
      i ∉ L →
      s.relays.length = st0.relays.length →
      (∀ k : Nat, ((s.relays[k]?).map (fun d => d.get? "label")) =
        ((st0.relays[k]?).map (fun d => d.get? "label"))) →
      s.relays[i]? = some di →
      (L.foldl (tickRelay ev) s).relays[i]? = some di ∧
      (L.foldl (tickRelay ev) s).relays.length = st0.relays.length ∧
      (∀ k : Nat,
        (((L.foldl (tickRelay ev) s).relays[k]?).map
          (fun d => d.get? "label")) =
        ((st0.relays[k]?).map (fun d => d.get? "label"))) := by
  intro L
  induction L with
  | nil => exact fun s _ hlen hlab hdi => ⟨hdi, hlen, hlab⟩
  | cons j L' ih =>
    intro s hmem hlen hlab hdi
    have hji : j ≠ i := by
      intro h
      exact hmem (by simp [h])
    have hstep : (tickRelay ev s j).relays[i]? = some di := by
      apply tickRelay_preserves ev s j i di hdi
      intro dj hj
      have hmap := hlab j
      rw [hj] at hmap
      rcases hj0 : st0.relays[j]? with _ | rj
      · rw [hj0] at hmap
        simp at hmap
      · rw [hj0] at hmap
        have hjlab : dj.get? "label" = rj.get? "label" := by
          simpa using hmap
        have hjsome := hlabels j rj hj0
        rcases Option.isSome_iff_exists.mp hjsome with ⟨lv, hlv⟩
        have hdj : dj.getD "label" (PyVal.str "Unknown") =
            rj.getD "label" PyVal.none := by
          simp [Dict.getD, hjlab, hlv]
        have hdieq : di.getD "label" PyVal.none =
            ri.getD "label" PyVal.none := by
          simp [Dict.getD, hdil]
        rw [hdj, hdieq]
        exact hdistinct i j ri rj hri hj0 (Ne.symm hji)
    have hinv := tickRelay_labels ev s j
    exact ih (tickRelay ev s j)
      ((by simpa using hmem : ¬i = j ∧ i ∉ L').2)
      (hinv.1.trans hlen)
      (fun k => (hinv.2 k).trans (hlab k)) hstep

/-- Amended C3: on an automation-loop tick, a relay in auto mode whose
rule evaluates to `None` (NoChange) keeps its `value`, `auto` and all
declarative fields byte-for-byte — but its `last_error` field is reset to
`None`, because the loop calls `clear_relay_error` on every successful
evaluation, NoChange included.  Labels are assumed present and pairwise
distinct (the spec calls `label` a unique key). -/
theorem tick_noChange_clears_last_error
    (ev : PyVal → Except String PyVal) (st : RMState) (i : Nat) (r : Dict)
    (hlabels : ∀ (k : Nat) d, st.relays[k]? = some d →
      (d.get? "label").isSome = true)
    (hdistinct : ∀ (k l : Nat) dk dl, st.relays[k]? = some dk →
      st.relays[l]? = some dl → k ≠ l →
      pyEq (dk.getD "label" PyVal.none) (dl.getD "label" PyVal.none) = false)
    (hr : st.relays[i]? = some r)
    (hauto : (r.getD "auto" (PyVal.bool false)).truthy = true)
    (hrule : (r.getD "rule" (PyVal.str "")).truthy = true)
    (hnop : pyEq (r.getD "rule" (PyVal.str ""))
      (PyVal.str "[\"NOP\"]") = false)
    (hev : ev (r.getD "rule" (PyVal.str "")) = .ok PyVal.none) :
    (tick ev st).relays[i]? = some (r.set "last_error" PyVal.none) ∧
    (r.set "last_error" PyVal.none).get? "value" = r.get? "value" ∧
    (r.set "last_error" PyVal.none).get? "auto" = r.get? "auto" ∧
    (r.set "last_error" PyVal.none).get? "last_error" = some PyVal.none := by
  have hin : i < st.relays.length := by
    by_contra hge
    rw [List.getElem?_eq_none (Nat.le_of_not_lt hge)] at hr
    cases hr
  have hsplit : List.range st.relays.length =
      List.range' 0 i ++
        (i :: List.range' (i+1) (st.relays.length - i - 1)) := by
    rw [List.range_eq_range']
    rw [show st.relays.length = (st.relays.length - i) + i by omega]
    rw [← List.range'_append 0 i (st.relays.length - i) 1]
    congr 1
    rw [show st.relays.length - i = (st.relays.length - i - 1) + 1 by omega]
    rw [List.range'_succ]
    simp only [Nat.zero_add, Nat.one_mul]
    congr 1
    rw [show st.relays.length - i - 1 + 1 + i - i - 1 =
      st.relays.length - i - 1 by omega]
  have hself : pyEq (r.getD "label" PyVal.none)
      (r.getD "label" (PyVal.str "Unknown")) = true := by
    rcases Option.isSome_iff_exists.mp (hlabels i r hr) with ⟨lv, hlv⟩
    simp [Dict.getD, hlv, pyEq_refl]
  have hpre := foldl_tick_preserves ev st hlabels hdistinct i r r hr rfl
    (List.range' 0 i) st
    (by intro hmem
        rcases List.mem_range'.mp hmem with ⟨w, hw, hweq⟩
        omega)
    rfl (fun k => rfl) hr
  obtain ⟨hs1r, hs1len, hs1lab⟩ := hpre
  have hfirst : ∀ k d', k < i →
      ((List.range' 0 i).foldl (tickRelay ev) st).relays[k]? = some d' →
      pyEq (d'.getD "label" PyVal.none)
        (r.getD "label" (PyVal.str "Unknown")) = false := by
    intro k d' hk hkd
    have hmap := hs1lab k
    rw [hkd] at hmap
    rcases hk0 : st.relays[k]? with _ | dk
    · rw [hk0] at hmap
      simp at hmap
    · rw [hk0] at hmap
      have hklab : d'.get? "label" = dk.get? "label" := by simpa using hmap
      have hdk : d'.getD "label" PyVal.none = dk.getD "label" PyVal.none := by
        simp [Dict.getD, hklab]
      have hru : r.getD "label" (PyVal.str "Unknown") =
          r.getD "label" PyVal.none := by
        rcases Option.isSome_iff_exists.mp (hlabels i r hr) with ⟨lv, hlv⟩
        simp [Dict.getD, hlv]
      rw [hdk, hru]
      exact hdistinct k i dk r hk0 hr (by omega)
  have hstep := tickRelay_clears_error ev
    ((List.range' 0 i).foldl (tickRelay ev) st) i r hs1r hauto hrule hnop hev
    hfirst hself
  have hinv := tickRelay_labels ev
    ((List.range' 0 i).foldl (tickRelay ev) st) i
  have hpost := foldl_tick_preserves ev st hlabels hdistinct i r
    (r.set "last_error" PyVal.none) hr
    (Dict.get?_set_ne r "last_error" "label" PyVal.none (by decide))
    (List.range' (i+1) (st.relays.length - i - 1))
    (tickRelay ev ((List.range' 0 i).foldl (tickRelay ev) st) i)
    (by intro hmem
        rcases List.mem_range'.mp hmem with ⟨w, hw, hweq⟩
        omega)
    (hinv.1.trans hs1len)
    (fun k => (hinv.2 k).trans (hs1lab k)) hstep.1
  refine ⟨?_, ?_, ?_, ?_⟩
  · unfold tick
    rw [hsplit, List.foldl_append]
    exact hpost.1
  · exact Dict.get?_set_ne r "last_error" "value" PyVal.none (by decide)
  · exact Dict.get?_set_ne r "last_error" "auto" PyVal.none (by decide)
  · exact Dict.get?_set_self r "last_error" PyVal.none

/-- Counterexample to C3 as stated: a relay in auto mode whose rule
evaluates to `None` (NoChange) does NOT keep every field byte-for-byte —
its `last_error` field, previously `"boom"`, is cleared to `None` by the
tick (main.py calls `clear_relay_error` on every successful evaluation). -/
theorem tick_noChange_counterexample :
    ((tick (fun _ => Except.ok PyVal.none)
      ⟨[[("pin", PyVal.int 4), ("label", PyVal.str "a"),
         ("value", PyVal.bool true), ("auto", PyVal.bool true),
         ("rule", PyVal.str "x"), ("last_error", PyVal.str "boom")]],
        [(PyVal.int 4, 1)], []⟩).relays[0]?).map
      (fun d => d.get? "last_error") ≠
    ((RMState.mk
      [[("pin", PyVal.int 4), ("label", PyVal.str "a"),
        ("value", PyVal.bool true), ("auto", PyVal.bool true),
        ("rule", PyVal.str "x"), ("last_error", PyVal.str "boom")]]
      [(PyVal.int 4, 1)] []).relays[0]?).map
      (fun d => d.get? "last_error") := by
  decide

/-- Witness for the amended C3 theorem at a concrete auto-mode relay with
a pending error and a NoChange rule result. -/
theorem tick_noChange_clears_last_error_witness :
    (tick (fun _ => Except.ok PyVal.none)
      ⟨[[("pin", PyVal.int 4), ("label", PyVal.str "a"),
         ("value", PyVal.bool true), ("auto", PyVal.bool true),
         ("rule", PyVal.str "x"), ("last_error", PyVal.str "boom")]],
        [(PyVal.int 4, 1)], []⟩).relays[0]? =
      some (Dict.set
        [("pin", PyVal.int 4), ("label", PyVal.str "a"),
         ("value", PyVal.bool true), ("auto", PyVal.bool true),
         ("rule", PyVal.str "x"), ("last_error", PyVal.str "boom")]
        "last_error" PyVal.none) ∧
    (Dict.set
        [("pin", PyVal.int 4), ("label", PyVal.str "a"),
         ("value", PyVal.bool true), ("auto", PyVal.bool true),
         ("rule", PyVal.str "x"), ("last_error", PyVal.str "boom")]
        "last_error" PyVal.none).get? "value" =
      Dict.get? [("pin", PyVal.int 4), ("label", PyVal.str "a"),
         ("value", PyVal.bool true), ("auto", PyVal.bool true),
         ("rule", PyVal.str "x"), ("last_error", PyVal.str "boom")]
        "value" ∧
    (Dict.set
        [("pin", PyVal.int 4), ("label", PyVal.str "a"),
         ("value", PyVal.bool true), ("auto", PyVal.bool true),
         ("rule", PyVal.str "x"), ("last_error", PyVal.str "boom")]
        "last_error" PyVal.none).get? "auto" =
      Dict.get? [("pin", PyVal.int 4), ("label", PyVal.str "a"),
         ("value", PyVal.bool true), ("auto", PyVal.bool true),
         ("rule", PyVal.str "x"), ("last_error", PyVal.str "boom")]
        "auto" ∧
    (Dict.set
        [("pin", PyVal.int 4), ("label", PyVal.str "a"),
         ("value", PyVal.bool true), ("auto", PyVal.bool true),
         ("rule", PyVal.str "x"), ("last_error", PyVal.str "boom")]
        "last_error" PyVal.none).get? "last_error" = some PyVal.none :=
  tick_noChange_clears_last_error (fun _ => Except.ok PyVal.none)
    ⟨[[("pin", PyVal.int 4), ("label", PyVal.str "a"),
       ("value", PyVal.bool true), ("auto", PyVal.bool true),
       ("rule", PyVal.str "x"), ("last_error", PyVal.str "boom")]],
      [(PyVal.int 4, 1)], []⟩ 0
    [("pin", PyVal.int 4), ("label", PyVal.str "a"),
     ("value", PyVal.bool true), ("auto", PyVal.bool true),
     ("rule", PyVal.str "x"), ("last_error", PyVal.str "boom")]
    (by intro k d hkd
        cases k with
        | zero =>
          have hd : ([("pin", PyVal.int 4), ("label", PyVal.str "a"),
              ("value", PyVal.bool true), ("auto", PyVal.bool true),
              ("rule", PyVal.str "x"),
              ("last_error", PyVal.str "boom")] : Dict) = d := by
            simpa using hkd
          subst hd
          decide
        | succ k' => simp at hkd)
    (by intro k l dk dl hk hl hne
        cases k with
        | zero =>
          cases l with
          | zero => exact absurd rfl hne
          | succ l' => simp at hl
        | succ k' => simp at hk)
    (by decide) (by decide) (by decide) (by decide) rfl
